import Mathlib

/-!
Verification development for the VideoCore IV QPU assembler
(src/videocore/assembler.py). The Python source is shallowly embedded:
registers, immediate encoders, the operand-placement solver, the ALU /
branch word builders, and the label/backpatch machinery are translated
into executable Lean definitions, and the behavioural claims about them
are proved below.
-/

namespace VC

/-- Every distinct failure site of the assembler. The constructors mirror
the diagnostics raised by the Python code (`AssembleError` with a given
message); `nameErrorSig` models the Python `NameError` raised at
MulInsnEmitter.assemble line 568, where the message string references the
undefined name `sig`. -/
inductive Err where
  | illegalImmediate
  | unsupportedImmediate
  | tooManyLanes
  | notA2BitValue
  | structRangeError
  | packingOfReadOperand
  | multipleUnpacking
  | tooManyRegfileA
  | tooManyRegfileB
  | tooManyRegfile
  | notAReadOperand
  | tooManyPacking
  | badDestinationCombination
  | invalidPackUnpackCombination
  | signalConflictsWithImmediate (sig : String)
  | nameErrorSig
  | rotateWithImmediate
  | rotateOperandRestriction
  | invalidRotation
  | unknownSignal (s : String)
  | accumulatorNoUnpack
  | unpackNotSupported
  | accumulatorNoPack
  | packNotSupported
  | mulPackNotSupported
  | keyError
  | undefinedLabel (l : String)
  | assertionError
  | indexError
  | duplicateLabel (l : String)
  | mustBeRegfileA
  | packWithBranch
  | internalError
  deriving DecidableEq, Repr

/-- QPU register: name, 6-bit address, capability mask `spec`
(A-read 0x8, B-read 0x4, A-write 0x2, B-write 0x1), plus the pack /
unpack modifier bits and the `pm` path bit, as in the Python
`Register.__init__`. -/
structure Register where
  name : String
  addr : Nat
  spec : Nat
  pack_bits : Nat
  unpack_bits : Nat
  pm_bits : Bool
  deriving DecidableEq, Repr

def REG_AR : Nat := 8
def REG_BR : Nat := 4
def REG_AW : Nat := 2
def REG_BW : Nat := 1

/-- Plain register (no modifiers), as produced by the REGISTERS table. -/
def mkReg (name : String) (addr : Nat) (spec : Nat) : Register :=
  ⟨name, addr, spec, 0, 0, false⟩

def ra (n : Nat) : Register := mkReg ("ra" ++ toString n) n 0xA
def rb (n : Nat) : Register := mkReg ("rb" ++ toString n) n 0x5
def r0 : Register := mkReg "r0" 32 0x3
def r1 : Register := mkReg "r1" 33 0x3
def r2 : Register := mkReg "r2" 34 0x3
def r3 : Register := mkReg "r3" 35 0x3
def r4 : Register := mkReg "r4" 36 0x0
def r5 : Register := mkReg "r5" 37 0x3
def null : Register := mkReg "null" 39 0xF
def uniform : Register := mkReg "uniform" 32 0xC
def element_number : Register := mkReg "element_number" 38 0x8
def qpu_number : Register := mkReg "qpu_number" 38 0x4
def host_interrupt : Register := mkReg "host_interrupt" 38 0x3

/-- The `_UNPACK` pattern table. -/
def UNPACK : String → Option Nat
  | "nop" => some 0
  | "16a" => some 1
  | "16b" => some 2
  | "rep 8d" => some 3
  | "8a" => some 4
  | "8b" => some 5
  | "8c" => some 6
  | "8d" => some 7
  | _ => none

/-- The `_PACK` pattern table. -/
def PACK : String → Option Nat
  | "nop" => some 0
  | "16a" => some 1
  | "16b" => some 2
  | "rep 8a" => some 3
  | "8a" => some 4
  | "8b" => some 5
  | "8c" => some 6
  | "8d" => some 7
  | "32 sat" => some 8
  | "16a sat" => some 9
  | "16b sat" => some 10
  | "rep 8a sat" => some 11
  | "8a sat" => some 12
  | "8b sat" => some 13
  | "8c sat" => some 14
  | "8d sat" => some 15
  | "rep 8a mul" => some 3
  | "8a mul" => some 4
  | "8b mul" => some 5
  | "8c mul" => some 6
  | "8d mul" => some 7
  | _ => none

/-- Function `Register.unpack`: derive a register carrying an unpack modifier.
Fails for r0-r3; r4 gets both read capabilities and `pm = true`; any
other register must be A-readable and keeps only A-read. -/
def Register.unpack (r : Register) (pat : String) : Except Err Register :=
  if r.name = "r0" ∨ r.name = "r1" ∨ r.name = "r2" ∨ r.name = "r3" then
    .error .accumulatorNoUnpack
  else if r.name = "r4" then
    match UNPACK pat with
    | some c => .ok ⟨r.name, r.addr, REG_AR ||| REG_BR, 0, c, true⟩
    | none => .error .keyError
  else if r.spec &&& REG_AR = 0 then .error .unpackNotSupported
  else
    match UNPACK pat with
    | some c => .ok ⟨r.name, r.addr, REG_AR, 0, c, false⟩
    | none => .error .keyError

/-- Function `Register.pack`: derive a register carrying a pack modifier. A
pattern not ending in "mul" needs A-write and leaves `pm = false`; a
"mul" pattern needs B-write and sets `pm = true`. -/
def Register.packMod (r : Register) (pat : String) : Except Err Register :=
  if r.name = "r0" ∨ r.name = "r1" ∨ r.name = "r2" ∨ r.name = "r3" then
    .error .accumulatorNoPack
  else if ¬(pat.takeRight 3 = "mul") then
    if r.spec &&& REG_AW = 0 then .error .packNotSupported
    else
      match PACK pat with
      | some c => .ok ⟨r.name, r.addr, REG_AW, c, 0, false⟩
      | none => .error .keyError
  else
    if r.spec &&& REG_BW = 0 then .error .mulPackNotSupported
    else
      match PACK pat with
      | some c => .ok ⟨r.name, r.addr, REG_BW, c, 0, true⟩
      | none => .error .keyError

/-- A value handed to `pack_small_imm`: a Python int or float. The
Python table is keyed by `repr(value)`, which is injective on ints and
on floats separately, so value-level matching per type is faithful;
floats are represented exactly by rationals here (every float in the
table is a small power of two). -/
inductive SImmVal where
  | int (n : Int)
  | float (q : Rat)
  deriving DecidableEq, Repr

/-- The float entries of the SMALL_IMMEDIATES dict: the canonical
(reduced) numerator/denominator pair of each of the sixteen powers of
two 2.0^i and 2.0^(i-8) (i in range(8)), mapped to its code. -/
def floatTable : List ((Int × Nat) × Nat) :=
  [((1, 1), 32), ((2, 1), 33), ((4, 1), 34), ((8, 1), 35), ((16, 1), 36), ((32, 1), 37),
   ((64, 1), 38), ((128, 1), 39), ((1, 256), 40), ((1, 128), 41), ((1, 64), 42),
   ((1, 32), 43), ((1, 16), 44), ((1, 8), 45), ((1, 4), 46), ((1, 2), 47)]

/-- Function `pack_small_imm`: the SMALL_IMMEDIATES table. Integers 0..15 map to
codes 0..15, integers -16..-1 to 16..31, the floats 2.0^i (i in 0..7)
to 32..39, the floats 2.0^(i-8) to 40..47, and the float 0.0 to code 0.
Anything else fails with IllegalImmediate. Floats are matched through
their reduced numerator/denominator pair, the canonical representation
of the rational value (mirroring the repr-keyed dict lookup). -/
def pack_small_imm : SImmVal → Except Err Nat
  | .int n =>
    if 0 ≤ n ∧ n ≤ 15 then .ok n.toNat
    else if -16 ≤ n ∧ n ≤ -1 then .ok (n + 32).toNat
    else .error .illegalImmediate
  | .float q =>
    if q.num = 0 then .ok 0
    else
      match floatTable.find? (fun e => decide (e.1.1 = q.num) && decide (e.1.2 = q.den)) with
      | some e => .ok e.2
      | none => .error .illegalImmediate

/-- A value handed to `pack_imm` (the load/branch immediate encoder):
a scalar integer or a per-element vector. (The scalar-float branch of
the Python function is not exercised by any claim.) -/
inductive ImmVal where
  | int (n : Int)
  | vec (l : List Int)
  deriving DecidableEq, Repr

/-- Python `v & 0x1` on an arbitrary int (two's complement). -/
def lbit (v : Int) : Nat := (v % 2).toNat

/-- Python `(v & 0x2) >> 1` on an arbitrary int (two's complement). -/
def hbit (v : Int) : Nat := ((v % 4) / 2).toNat

/-- Per-lane range check of `pack_imm`: signed lanes must be in [-2,1],
unsigned lanes below 4. -/
def laneBad (signed : Bool) (v : Int) : Bool :=
  (signed && decide (2 ≤ v ∨ v < -2)) || (!signed && decide (4 ≤ v))

/-- The MSB-first accumulation loop of `pack_imm` over the 16 lanes:
each step shifts both halves left by one and appends the lane's high
and low bit. -/
def packLanes (signed : Bool) : List Int → Nat → Nat → Except Err (Nat × Nat)
  | [], high, low => .ok (high, low)
  | v :: vs, high, low =>
    if laneBad signed v then .error .notA2BitValue
    else packLanes signed vs (high * 2 + hbit v) (low * 2 + lbit v)

/-- Function `pack_imm`: 32-bit immediate encoder. Integers are reinterpreted as
32-bit two's complement (struct.pack range rules for a 32-bit platform);
vectors of at most 16 lanes are packed two bits per lane, with the
returned unpack code 1 for signed and 3 for unsigned vectors. -/
def pack_imm : ImmVal → Except Err (Nat × Nat)
  | .int v =>
    if v < 0 then
      if -(2^31) ≤ v then .ok ((v % (2^32)).toNat, 0) else .error .structRangeError
    else
      if v < 2^32 then .ok (v.toNat, 0) else .error .structRangeError
  | .vec l =>
    if l.length > 16 then .error .tooManyLanes
    else
      let values := l ++ List.replicate (16 - l.length) 0
      let signed := values.any (fun x => decide (x < 0))
      match packLanes signed values 0 0 with
      | .error e => .error e
      | .ok (high, low) => .ok ((high <<< 16) ||| low, 2 * (if signed then 0 else 1) + 1)

/-- The SIGNALING_BITS table. -/
def SIGNALING_BITS : String → Option Nat
  | "breakpoint" => some 0
  | "no signal" => some 1
  | "thread switch" => some 2
  | "thread end" => some 3
  | "wait scoreboard" => some 4
  | "unlock scoreboard" => some 5
  | "last thread switch" => some 6
  | "load coverage" => some 7
  | "load color" => some 8
  | "load color and thread end" => some 9
  | "load tmu0" => some 10
  | "load tmu1" => some 11
  | "load alpha" => some 12
  | "alu small imm" => some 13
  | "load" => some 14
  | "branch" => some 15
  | _ => none

/-- The ACCUMURATOR_CODES table (keyed by register name, as in the
source). -/
def ACCUMURATOR_CODES : String → Option Nat
  | "r0" => some 0
  | "r1" => some 1
  | "r2" => some 2
  | "r3" => some 3
  | "r4" => some 4
  | "r5" => some 5
  | _ => none

def INPUT_MUX_REGFILE_A : Nat := 6
def INPUT_MUX_REGFILE_B : Nat := 7

/-- A read operand of `locate_read_operands`: either a `Register` or a
non-Register value, which the solver treats as a small immediate. -/
inductive Operand where
  | reg (r : Register)
  | imm (v : SImmVal)
  deriving DecidableEq, Repr

/-- Result row of `locate_read_operands`: the four input-mux selectors,
raddr_a, raddr_b, the small-immediate flag, and the surviving
unpack/pm modifier bits. -/
structure ReadLoc where
  add_a : Nat
  add_b : Nat
  mul_a : Nat
  mul_b : Nat
  raddr_a : Nat
  raddr_b : Nat
  immed : Bool
  unpack : Nat
  pm : Bool
  deriving DecidableEq, Repr

/-- First loop of `locate_read_operands`: read operands may carry no
pack; all unpack codes must coincide; the running unpack/pm pair is
overwritten by each unpacking operand in turn. -/
def phase1 : List Operand → Nat → Bool → Except Err (Nat × Bool)
  | [], u, p => .ok (u, p)
  | .imm _ :: rest, u, p => phase1 rest u p
  | .reg r :: rest, u, p =>
    if r.pack_bits ≠ 0 then .error .packingOfReadOperand
    else if r.unpack_bits ≠ 0 then
      if u ≠ 0 ∧ r.unpack_bits ≠ u then .error .multipleUnpacking
      else phase1 rest r.unpack_bits r.pm_bits
    else phase1 rest u p

/-- Accumulator-mux assignment (second loop): operands named r0..r5 get
their accumulator code, everything else stays unassigned. -/
def initMux : Operand → Option Nat
  | .reg r => ACCUMURATOR_CODES r.name
  | .imm _ => none

/-- Running raddr state of the placement loops. -/
structure LocSt where
  raddr_a : Option Nat
  raddr_b : Option Nat
  immed : Bool
  deriving DecidableEq, Repr

/-- Third loop of `locate_read_operands` (file-constrained operands):
small immediates go to raddr_b (setting the immed flag); registers
readable from exactly one file are committed to that file, with
conflicting addresses rejected. -/
def phase2 : List (Option Nat × Operand) → LocSt → Except Err (List (Option Nat) × LocSt)
  | [], st => .ok ([], st)
  | (some m, _) :: rest, st =>
    (phase2 rest st).map fun p => (some m :: p.1, p.2)
  | (none, .imm v) :: rest, st =>
    match pack_small_imm v with
    | .error e => .error e
    | .ok code =>
      match st.raddr_b with
      | some b =>
        if st.immed = true ∧ b = code then
          (phase2 rest ⟨st.raddr_a, some code, true⟩).map fun p => (some INPUT_MUX_REGFILE_B :: p.1, p.2)
        else .error .tooManyRegfileB
      | none =>
        (phase2 rest ⟨st.raddr_a, some code, true⟩).map fun p => (some INPUT_MUX_REGFILE_B :: p.1, p.2)
  | (none, .reg r) :: rest, st =>
    if r.spec &&& REG_AR ≠ 0 ∧ r.spec &&& REG_BR = 0 then
      match st.raddr_a with
      | some a =>
        if a ≠ r.addr then .error .tooManyRegfileA
        else (phase2 rest ⟨some r.addr, st.raddr_b, st.immed⟩).map fun p => (some INPUT_MUX_REGFILE_A :: p.1, p.2)
      | none =>
        (phase2 rest ⟨some r.addr, st.raddr_b, st.immed⟩).map fun p => (some INPUT_MUX_REGFILE_A :: p.1, p.2)
    else if r.spec &&& REG_AR = 0 ∧ r.spec &&& REG_BR ≠ 0 then
      match st.raddr_b with
      | some b =>
        if b ≠ r.addr then .error .tooManyRegfileB
        else (phase2 rest ⟨st.raddr_a, some r.addr, st.immed⟩).map fun p => (some INPUT_MUX_REGFILE_B :: p.1, p.2)
      | none =>
        (phase2 rest ⟨st.raddr_a, some r.addr, st.immed⟩).map fun p => (some INPUT_MUX_REGFILE_B :: p.1, p.2)
    else
      (phase2 rest st).map fun p => (none :: p.1, p.2)

/-- Final loop of `locate_read_operands` (ambiguous operands): a
remaining operand must be readable from some file; fill raddr_a first,
then raddr_b, else fail. Non-Register operands never reach this loop. -/
def phase3 : List (Option Nat × Operand) → Option Nat → Option Nat → Except Err (List Nat × Option Nat × Option Nat)
  | [], a, b => .ok ([], a, b)
  | (some m, _) :: rest, a, b =>
    (phase3 rest a b).map fun p => (m :: p.1, p.2)
  | (none, .imm _) :: _, _, _ => .error .internalError
  | (none, .reg r) :: rest, a, b =>
    if r.spec &&& (REG_AR ||| REG_BR) = 0 then .error .notAReadOperand
    else if a = none ∧ r.spec &&& REG_AR ≠ 0 then
      (phase3 rest (some r.addr) b).map fun p => (INPUT_MUX_REGFILE_A :: p.1, p.2)
    else if b = none ∧ r.spec &&& REG_BR ≠ 0 then
      (phase3 rest a (some r.addr)).map fun p => (INPUT_MUX_REGFILE_B :: p.1, p.2)
    else .error .tooManyRegfile

/-- Function `locate_read_operands`: place the four read operands (add pipe then
mul pipe) on the input muxes and the two regfile read slots. -/
def locate_read_operands (add1 add2 mul1 mul2 : Operand) : Except Err ReadLoc := do
  let operands := [add1, add2, mul1, mul2]
  let (unpack, pm) ← phase1 operands 0 false
  let mux0 := operands.map initMux
  if mux0.all Option.isSome then
    match mux0 with
    | [a, b, c, d] => .ok ⟨a.getD 0, b.getD 0, c.getD 0, d.getD 0, 39, 39, false, unpack, pm⟩
    | _ => .error .internalError
  else do
    let (mux1, st) ← phase2 (mux0.zip operands) ⟨none, none, false⟩
    let (mux2, rab) ← phase3 (mux1.zip operands) st.raddr_a st.raddr_b
    match mux2 with
    | [a, b, c, d] => .ok ⟨a, b, c, d, rab.1.getD 39, rab.2.getD 39, st.immed, unpack, pm⟩
    | _ => .error .internalError

/-- Function `locate_write_operands`: returns (waddr_add, waddr_mul, ws, pack,
pm). At most one destination may carry a pack; the unswapped (A,B)
assignment is tried first, then the swapped one. -/
def locate_write_operands (add_dst mul_dst : Register) : Except Err (Nat × Nat × Bool × Nat × Bool) :=
  let packRes : Except Err (Nat × Bool) :=
    if add_dst.pack_bits ≠ 0 then
      if mul_dst.pack_bits ≠ 0 then .error .tooManyPacking
      else .ok (add_dst.pack_bits, false)
    else if mul_dst.pack_bits ≠ 0 then .ok (mul_dst.pack_bits, true)
    else .ok (0, false)
  match packRes with
  | .error e => .error e
  | .ok (pack, pm) =>
    if add_dst.spec &&& REG_AW ≠ 0 ∧ mul_dst.spec &&& REG_BW ≠ 0 then
      .ok (add_dst.addr, mul_dst.addr, false, pack, pm)
    else if mul_dst.spec &&& REG_AW ≠ 0 ∧ add_dst.spec &&& REG_BW ≠ 0 then
      .ok (add_dst.addr, mul_dst.addr, true, pack, pm)
    else .error .badDestinationCombination

/-- The ALU word layout (ctypes bitfields, LSB first). Construction
sites truncate each field to its width, as ctypes assignment does. -/
structure AluInsn where
  mul_b : Nat
  mul_a : Nat
  add_b : Nat
  add_a : Nat
  raddr_b : Nat
  raddr_a : Nat
  op_add : Nat
  op_mul : Nat
  waddr_mul : Nat
  waddr_add : Nat
  ws : Nat
  sf : Nat
  cond_mul : Nat
  cond_add : Nat
  pack : Nat
  pm : Nat
  unpack : Nat
  sig : Nat
  deriving DecidableEq, Repr

/-- Serialize an ALU word to its 64-bit value (to_bytes, little-endian). -/
def AluInsn.encode (w : AluInsn) : Nat :=
  w.mul_b + w.mul_a * 2^3 + w.add_b * 2^6 + w.add_a * 2^9 + w.raddr_b * 2^12 +
  w.raddr_a * 2^18 + w.op_add * 2^24 + w.op_mul * 2^29 + w.waddr_mul * 2^32 +
  w.waddr_add * 2^38 + w.ws * 2^44 + w.sf * 2^45 + w.cond_mul * 2^46 +
  w.cond_add * 2^49 + w.pack * 2^52 + w.pm * 2^56 + w.unpack * 2^57 + w.sig * 2^60

/-- The rotate argument of a mul-pipe mnemonic: a small integer or the
register r5 (0 means no rotation). -/
inductive RotArg where
  | int (n : Int)
  | r5
  deriving DecidableEq, Repr

/-- Python truthiness of the rotate argument. -/
def RotArg.isNonzero : RotArg → Bool
  | .int n => n ≠ 0
  | .r5 => true

/-- The pending mul-pipe binder returned by `add_insn`: it records the
add-pipe half of the instruction so that a mul mnemonic can rebuild the
combined word. -/
structure MulInsnEmitter where
  op_add : Nat
  add_dst : Register
  add_opd1 : Operand
  add_opd2 : Operand
  sig : String
  set_flags : Bool
  deriving DecidableEq, Repr

/-- Shared pack/unpack `pm` reconciliation of add_insn and
MulInsnEmitter.assemble: a conflict of the two paths is an error; a
lone modifier passes its own pm; note that matching pack and unpack
modifiers fall through to pm = 0. -/
def combinePm (unpack pack : Nat) (read_pm write_pm : Bool) : Except Err Bool :=
  if unpack ≠ 0 ∧ pack ≠ 0 ∧ read_pm ≠ write_pm then .error .invalidPackUnpackCombination
  else if unpack ≠ 0 ∧ pack = 0 then .ok read_pm
  else if pack ≠ 0 ∧ unpack = 0 then .ok write_pm
  else .ok false

/-- Function `MulInsnEmitter.assemble`: build the combined ALU word (it replaces
the last emitted word in the Python code). The raised error when a
small immediate or rotation meets a non-default signal is a Python
NameError, since line 568 formats the undefined name `sig`. -/
def MulInsnEmitter.assemble (e : MulInsnEmitter) (op_mul : Nat) (mul_dst : Register)
    (mul_opd1 mul_opd2 : Operand) (rotate : RotArg) : Except Err AluInsn := do
  let ro ← locate_read_operands e.add_opd1 e.add_opd2 mul_opd1 mul_opd2
  let wo ← locate_write_operands e.add_dst mul_dst
  let (waddr_add, waddr_mul, write_swap, pack, write_pm) := wo
  let pm ← combinePm ro.unpack pack ro.pm write_pm
  let sig2 ← if ro.immed = true ∨ rotate.isNonzero = true then
      if e.sig ≠ "no signal" then .error .nameErrorSig
      else .ok "alu small imm"
    else .ok e.sig
  let sig_bits ← match SIGNALING_BITS sig2 with
    | some c => .ok c
    | none => .error (.unknownSignal sig2)
  let raddr_b ← if rotate.isNonzero = true then
      if ro.immed = true then .error .rotateWithImmediate
      else if ¬(ro.mul_a < 3 ∧ ro.mul_b < 3) then .error .rotateOperandRestriction
      else match rotate with
        | .r5 => .ok 48
        | .int n => if 1 ≤ n ∧ n ≤ 15 then .ok (48 + n).toNat else .error .invalidRotation
    else .ok ro.raddr_b
  .ok ⟨ro.mul_b % 8, ro.mul_a % 8, ro.add_b % 8, ro.add_a % 8, raddr_b % 64, ro.raddr_a % 64,
    e.op_add % 32, op_mul % 8, waddr_mul % 64, waddr_add % 64, write_swap.toNat,
    e.set_flags.toNat, 1, 1, pack % 16, pm.toNat, ro.unpack % 8, sig_bits % 16⟩

/-- Function `Assembler.add_insn`: build the add-pipe ALU word (mul pipe is a
no-op) and the mul binder handed back to the caller. Note the binder
receives the updated signal and flag values. -/
def add_insn (name : String) (opcode : Nat) (dst : Register) (opd1 opd2 : Operand)
    (sig : String) (set_flags : Bool) : Except Err (AluInsn × MulInsnEmitter) := do
  let ro ← locate_read_operands opd1 opd2 (.reg r0) (.reg r0)
  let sig2 ← if ro.immed = true then
      if sig ≠ "no signal" then .error (.signalConflictsWithImmediate sig)
      else .ok "alu small imm"
    else .ok sig
  let sig_bits ← match SIGNALING_BITS sig2 with
    | some c => .ok c
    | none => .error (.unknownSignal sig2)
  let sf2 := if name = "nop" then false else set_flags
  let wo ← locate_write_operands dst null
  let (waddr_add, waddr_mul, write_swap, pack, write_pm) := wo
  let pm ← combinePm ro.unpack pack ro.pm write_pm
  .ok (⟨ro.mul_b % 8, ro.mul_a % 8, ro.add_b % 8, ro.add_a % 8, ro.raddr_b % 64, ro.raddr_a % 64,
      opcode % 32, 0, waddr_mul % 64, waddr_add % 64, write_swap.toNat, sf2.toNat, 1, 1,
      pack % 16, pm.toNat, ro.unpack % 8, sig_bits % 16⟩,
    ⟨opcode, dst, opd1, opd2, sig2, sf2⟩)

/-- Serialize a branch word from its fields (ctypes truncation per
field width; note raddr_a is only 5 bits wide here, at bit 45). -/
def branchWord (immediate : Int) (waddr_mul waddr_add : Nat) (ws : Bool) (raddr_a : Nat)
    (reg rel : Bool) (cond_br : Nat) : Nat :=
  (immediate % (2^32)).toNat + (waddr_mul % 64) * 2^32 + (waddr_add % 64) * 2^38 +
  ws.toNat * 2^44 + (raddr_a % 32) * 2^45 + reg.toNat * 2^50 + rel.toNat * 2^51 +
  (cond_br % 16) * 2^52 + 15 * 2^60

/-- Assembler state: emitted 64-bit words, byte program counter, label
map and the pending branch list. -/
structure AsmState where
  insns : List Nat
  pc : Nat
  labels : List (String × Nat)
  backpatch_list : List (Nat × String)
  deriving DecidableEq, Repr

def initAsm : AsmState := ⟨[], 0, [], []⟩

/-- Function `Assembler.emit` with increment=True: append a word, advance the PC
by 8 bytes. -/
def AsmState.emit (st : AsmState) (w : Nat) : AsmState :=
  { st with insns := st.insns ++ [w], pc := st.pc + 8 }

def lookupLabel (labels : List (String × Nat)) (l : String) : Option Nat :=
  match labels.find? (fun e => e.1 = l) with
  | some e => some e.2
  | none => none

/-- Function `Assembler.label`: record the current PC under the given name. -/
def Assembler.label (st : AsmState) (name : String) : Except Err AsmState :=
  if (lookupLabel st.labels name).isSome then .error (.duplicateLabel name)
  else .ok { st with labels := st.labels ++ [(name, st.pc)] }

/-- A branch target: a label name (relative, backpatched later) or an
absolute integer displacement. -/
inductive BrTarget where
  | label (s : String)
  | abs (n : Int)
  deriving DecidableEq, Repr

/-- Function `Assembler.branch_insn`: emit a branch word; a label target is
recorded on the backpatch list with a zero immediate for now. -/
def Assembler.branch_insn (st : AsmState) (cond_br : Nat) (target : BrTarget)
    (reg : Option Register) (link : Register) : Except Err AsmState := do
  let (imm, relative, bl) :=
    match target with
    | .label s => ((0 : Int), true, st.backpatch_list ++ [(st.pc, s)])
    | .abs n => (n, false, st.backpatch_list)
  let (raddr_a, use_reg) ←
    match reg with
    | some r =>
      if r.spec &&& REG_AR ≠ 0 then (.ok (r.addr, true) : Except Err (Nat × Bool))
      else .error .mustBeRegfileA
    | none => (.ok (0, false) : Except Err (Nat × Bool))
  let wo ← locate_write_operands link null
  let (waddr_add, waddr_mul, write_swap, pack, pm) := wo
  if pack ≠ 0 ∨ pm = true then .error .packWithBranch
  else .ok (({ st with backpatch_list := bl }).emit
    (branchWord imm waddr_mul waddr_add write_swap raddr_a use_reg relative cond_br))

/-- Overwrite the 32-bit immediate field (bits 0..31) of a word, as the
ctypes bitfield assignment in `backpatch` does. -/
def setImm (w v : Nat) : Nat := (w / 2^32) * 2^32 + v % 2^32

/-- The `backpatch` loop: for each pending (pc, label), resolve the
label and rewrite the branch word's immediate with
labels[label] - (pc + 4*8), truncated to 32 bits. The word must decode
as a branch (top four bits 15), per the assert in the source. -/
def runBackpatch (labels : List (String × Nat)) :
    List (Nat × String) → List Nat → Except Err (List Nat)
  | [], insns => .ok insns
  | (p, l) :: rest, insns =>
    match lookupLabel labels l with
    | none => .error (.undefinedLabel l)
    | some t =>
      if hp : p / 8 < insns.length then
        let w := insns.get ⟨p / 8, hp⟩
        if w >>> 60 = 15 then
          runBackpatch labels rest
            (insns.set (p / 8) (setImm w (((t : Int) - ((p : Int) + 32)) % (2^32)).toNat))
        else .error .assertionError
      else .error .indexError

/-- Function `Assembler.backpatch`: drain the pending list. -/
def Assembler.backpatch (st : AsmState) : Except Err AsmState := do
  let insns2 ← runBackpatch st.labels st.backpatch_list st.insns
  .ok { st with insns := insns2, backpatch_list := [] }

/-- Function `Assembler.getcode`: backpatch, then return the word stream (the
byte string is the little-endian concatenation of these words). -/
def Assembler.getcode (st : AsmState) : Except Err (List Nat) := do
  let st2 ← Assembler.backpatch st
  .ok st2.insns

/-- State-level wrapper of an add-pipe mnemonic: encode and append. -/
def Assembler.emit_add (st : AsmState) (name : String) (opcode : Nat) (dst : Register)
    (opd1 opd2 : Operand) (sig : String) (set_flags : Bool) : Except Err AsmState := do
  let (w, _) ← add_insn name opcode dst opd1 opd2 sig set_flags
  .ok (st.emit w.encode)

/-- The `nop` mnemonic. -/
def Assembler.nop (st : AsmState) : Except Err AsmState :=
  Assembler.emit_add st "nop" 0 null (.reg r0) (.reg r0) "no signal" true

/-- The scenario program: `label("L"); nop; jmp("L"); nop; nop; nop;
nop` (jmp is branch condition 15 with no register and no link). -/
def demoProgram : Except Err AsmState := do
  let st ← Assembler.label initAsm "L"
  let st ← Assembler.nop st
  let st ← Assembler.branch_insn st 15 (.label "L") none null
  let st ← Assembler.nop st
  let st ← Assembler.nop st
  let st ← Assembler.nop st
  let st ← Assembler.nop st
  .ok st

/-- The assembler state produced by `demoProgram` (computed once; the
equality is checked in the corresponding witness theorem). -/
def demoState : AsmState :=
  ⟨[1153565711056924672, 17363639251069042688, 1153565711056924672, 1153565711056924672,
    1153565711056924672, 1153565711056924672], 48, [("L", 0)], [(8, "L")]⟩

/-- The pack code surviving write placement: add_dst's pack if present,
else mul_dst's. -/
def survivingPack (a m : Register) : Nat :=
  if a.pack_bits ≠ 0 then a.pack_bits else m.pack_bits

/-- The pm bit of write placement: true exactly when the surviving pack
code comes from mul_dst. -/
def survivingPm (a m : Register) : Bool :=
  a.pack_bits = 0 ∧ m.pack_bits ≠ 0

/-- Membership in the SMALL_IMMEDIATES table, described by value as the
dict comprehensions build it: integers -16..15, the floats 2.0^i and
2.0^(i-8) for i in range(8), and the float 0.0. -/
def inSmallImmTable : SImmVal → Prop
  | .int n => -16 ≤ n ∧ n ≤ 15
  | .float q => q = 0 ∨ (∃ i ∈ Finset.range 8, q = 2^i) ∨ (∃ i ∈ Finset.range 8, q = (2^i : Rat) / 256)

/-- Value of the low 16-bit half built by the MSB-first accumulation:
the head lane's low bit lands above all following lanes. -/
def lowBitsSum : List Int → Nat
  | [] => 0
  | v :: vs => lbit v * 2^vs.length + lowBitsSum vs

/-- Value of the high 16-bit half built by the MSB-first accumulation. -/
def highBitsSum : List Int → Nat
  | [] => 0
  | v :: vs => hbit v * 2^vs.length + highBitsSum vs

/-- The 32-bit word the specification describes for a vector immediate:
lane i contributes its low bit at bit position 15-i and its high bit at
position 31-i (lane 0 at bits 15 and 31, lane 15 at bits 0 and 16),
missing trailing lanes reading as zero. -/
def vecWordSpec (lanes : List Int) : Nat :=
  ∑ i ∈ Finset.range 16,
    (lbit ((lanes ++ List.replicate (16 - lanes.length) 0).getD i 0) * 2^(15-i) +
     hbit ((lanes ++ List.replicate (16 - lanes.length) 0).getD i 0) * 2^(31-i))

/-- A register readable from file A only. -/
abbrev AonlyRead (r : Register) : Prop :=
  r.spec &&& REG_AR ≠ 0 ∧ r.spec &&& REG_BR = 0

/-- A register readable from file B only. -/
abbrev BonlyRead (r : Register) : Prop :=
  r.spec &&& REG_AR = 0 ∧ r.spec &&& REG_BR ≠ 0

/-- The last operand of the list carrying an unpack modifier, whose
modifier bits survive the reconciliation loop. -/
def lastUnpack : List Operand → Option Register
  | [] => none
  | .reg r :: rest =>
    (match lastUnpack rest with
     | some q => some q
     | none => if r.unpack_bits ≠ 0 then some r else none)
  | .imm _ :: rest => lastUnpack rest

/-- Whether an operand is a (small-immediate) non-Register value. -/
def Operand.isImm : Operand → Bool
  | .reg _ => false
  | .imm _ => true

/-- The register derived as `r4.unpack(16a)` (both reads valid,
`pm = true`). -/
def r4unpack16a : Register := ⟨"r4", 36, 12, 0, 1, true⟩

/-- The register derived as `ra1.unpack(16a)` (A-read only,
`pm = false`). -/
def ra1unpack16a : Register := ⟨"ra1", 1, 8, 0, 1, false⟩

/-- The register derived as `ra1.unpack(16b)` (A-read only,
`pm = false`). -/
def ra1unpack16b : Register := ⟨"ra1", 1, 8, 0, 2, false⟩

/-- The ALU word produced by a mul emission with `rotate = 3` used in
the rotate witness. -/
def rotateDemoInsn : AluInsn :=
  ⟨1, 0, 0, 0, 51, 39, 12, 1, 39, 39, 0, 1, 1, 1, 0, 0, 0, 13⟩

/-- Except values compare decidably when both components do. -/
instance {ε α : Type} [DecidableEq ε] [DecidableEq α] : DecidableEq (Except ε α) := fun x y =>
  match x, y with
  | .ok a, .ok b => if h : a = b then .isTrue (by rw [h]) else .isFalse (by simp [h])
  | .error a, .error b => if h : a = b then .isTrue (by rw [h]) else .isFalse (by simp [h])
  | .ok _, .error _ => .isFalse (by simp)
  | .error _, .ok _ => .isFalse (by simp)

/-- Field bound: the 32-bit truncation of an integer immediate. -/
theorem emod32_toNat_lt (x : Int) : (x % (2^32)).toNat < 2^32 := by
  have h1 := Int.emod_nonneg x (by norm_num : (2^32 : Int) ≠ 0)
  have h2 := Int.emod_lt_of_pos x (by norm_num : (0:Int) < 2^32)
  norm_num at h1 h2 ⊢
  omega

/-- Extracting the 5-bit raddr_a field (bits 45..49) of a branch word
recovers the register address modulo 32. -/
theorem branchWord_field_raddr (imm : Int) (wm wa : Nat) (ws : Bool) (raddr : Nat)
    (reg rel : Bool) (cb : Nat) :
    branchWord imm wm wa ws raddr reg rel cb >>> 45 % 32 = raddr % 32 := by
  unfold branchWord
  rw [Nat.shiftRight_eq_div_pow]
  have h1 : (imm % (2^32)).toNat < 2^32 := emod32_toNat_lt imm
  have h2 : wm % 64 < 64 := Nat.mod_lt _ (by norm_num)
  have h3 : wa % 64 < 64 := Nat.mod_lt _ (by norm_num)
  have h4 : ws.toNat ≤ 1 := Bool.toNat_le _
  have h5 : raddr % 32 < 32 := Nat.mod_lt _ (by norm_num)
  have h6 : reg.toNat ≤ 1 := Bool.toNat_le _
  have h7 : rel.toNat ≤ 1 := Bool.toNat_le _
  have h8 : cb % 16 < 16 := Nat.mod_lt _ (by norm_num)
  omega

/-- C6 counterexample: `pack_imm` on the 16-lane unsigned vector
[3,3,1,1,0,2,3,3,1,3,0,2,2,1,0,1] does not return (0xC759CE85, 3); the
word actually produced differs from the claimed hex value. -/
theorem pack_imm_concrete_vector_ne :
    pack_imm (.vec [3, 3, 1, 1, 0, 2, 3, 3, 1, 3, 0, 2, 2, 1, 0, 1]) ≠ .ok (0xC759CE85, 3) := by
  decide

/-- C6 (amended): `pack_imm` applied to the 16-lane unsigned vector
[3,3,1,1,0,2,3,3,1,3,0,2,2,1,0,1] returns the pair (0xC758F3C5, 3),
i.e. (3344495557, 3), the value the doctest in the source records. -/
theorem pack_imm_concrete_vector :
    pack_imm (.vec [3, 3, 1, 1, 0, 2, 3, 3, 1, 3, 0, 2, 2, 1, 0, 1]) = .ok (0xC758F3C5, 3) := by
  decide

/-- C2: write placement takes (add_dst, mul_dst) and returns
(waddr_add, waddr_mul, ws, pack, pm). If both destinations carry a pack
code the call fails TooManyPacking; otherwise, if add_dst is A-writable
and mul_dst is B-writable the two addresses are returned with ws=false;
otherwise, if mul_dst is A-writable and add_dst is B-writable, the same
addresses are returned with ws=true; if neither assignment satisfies
the capability check it fails BadDestinationCombination. The pm flag is
true exactly when the surviving pack code comes from mul_dst. -/
theorem locate_write_operands_spec (a m : Register) :
    (a.pack_bits ≠ 0 ∧ m.pack_bits ≠ 0 → locate_write_operands a m = .error .tooManyPacking) ∧
    (¬(a.pack_bits ≠ 0 ∧ m.pack_bits ≠ 0) →
      ((a.spec &&& REG_AW ≠ 0 ∧ m.spec &&& REG_BW ≠ 0 →
          locate_write_operands a m = .ok (a.addr, m.addr, false, survivingPack a m, survivingPm a m)) ∧
       (¬(a.spec &&& REG_AW ≠ 0 ∧ m.spec &&& REG_BW ≠ 0) →
          ((m.spec &&& REG_AW ≠ 0 ∧ a.spec &&& REG_BW ≠ 0 →
             locate_write_operands a m = .ok (a.addr, m.addr, true, survivingPack a m, survivingPm a m)) ∧
           (¬(m.spec &&& REG_AW ≠ 0 ∧ a.spec &&& REG_BW ≠ 0) →
             locate_write_operands a m = .error .badDestinationCombination))))) ∧
    (survivingPm a m = true ↔ (a.pack_bits = 0 ∧ m.pack_bits ≠ 0)) := by
  unfold locate_write_operands survivingPack survivingPm
  split_ifs with h1 h2 h3 <;> simp_all

/-- C2 witness: the unswapped assignment for (ra1, rb2). -/
theorem locate_write_operands_spec_witness :
    locate_write_operands (ra 1) (rb 2) = .ok (1, 2, false, 0, false) := by
  have h := ((locate_write_operands_spec (ra 1) (rb 2)).2.1 (by decide)).1 (by decide)
  simpa using h

/-- C9: `pack_small_imm` maps the integer 0 and the float 0.0 both to
code 0; every accepted value gets a code in [0,47]; every value outside
the small-immediate table fails IllegalImmediate. -/
theorem pack_small_imm_spec :
    pack_small_imm (.int 0) = .ok 0 ∧ pack_small_imm (.float 0) = .ok 0 ∧
    (∀ v c, pack_small_imm v = .ok c → c ≤ 47) ∧
    (∀ v, ¬ inSmallImmTable v → pack_small_imm v = .error .illegalImmediate) := by
  refine ⟨by decide, by decide, ?_, ?_⟩
  · rintro (n | q) c h
    · simp only [pack_small_imm] at h
      split_ifs at h with h1 h2 <;> injection h with h3 <;> omega
    · cases hf : floatTable.find? (fun e => decide (e.1.1 = q.num) && decide (e.1.2 = q.den)) with
      | none =>
        simp only [pack_small_imm, hf] at h
        split_ifs at h with h1
        injection h with h3
        omega
      | some e =>
        have hmem := List.mem_of_find?_eq_some hf
        have hall : ∀ x ∈ floatTable, x.2 ≤ 47 := by decide
        simp only [pack_small_imm, hf] at h
        split_ifs at h with h1
        · injection h with h3; omega
        · injection h with h3
          have := hall e hmem
          omega
  · rintro (n | q) hv
    · simp only [inSmallImmTable] at hv
      simp only [pack_small_imm]
      split_ifs with h1 h2
      · exact absurd (show -16 ≤ n ∧ n ≤ 15 by omega) hv
      · exact absurd (show -16 ≤ n ∧ n ≤ 15 by omega) hv
      · rfl
    · simp only [inSmallImmTable] at hv
      push_neg at hv
      obtain ⟨h0, hp, hq⟩ := hv
      have hnum : ¬(q.num = 0) := fun hn => h0 (Rat.num_eq_zero.mp hn)
      have hfind : floatTable.find? (fun e => decide (e.1.1 = q.num) && decide (e.1.2 = q.den)) = none := by
        rw [List.find?_eq_none]
        intro x hx
        fin_cases hx <;> simp only [Bool.and_eq_true, decide_eq_true_eq]
        · rintro ⟨e1, e2⟩
          exact hp 0 (by decide) (Rat.ext (e1.symm.trans (by norm_num)) (e2.symm.trans (by norm_num)))
        · rintro ⟨e1, e2⟩
          exact hp 1 (by decide) (Rat.ext (e1.symm.trans (by norm_num)) (e2.symm.trans (by norm_num)))
        · rintro ⟨e1, e2⟩
          exact hp 2 (by decide) (Rat.ext (e1.symm.trans (by norm_num)) (e2.symm.trans (by norm_num)))
        · rintro ⟨e1, e2⟩
          exact hp 3 (by decide) (Rat.ext (e1.symm.trans (by norm_num)) (e2.symm.trans (by norm_num)))
        · rintro ⟨e1, e2⟩
          exact hp 4 (by decide) (Rat.ext (e1.symm.trans (by norm_num)) (e2.symm.trans (by norm_num)))
        · rintro ⟨e1, e2⟩
          exact hp 5 (by decide) (Rat.ext (e1.symm.trans (by norm_num)) (e2.symm.trans (by norm_num)))
        · rintro ⟨e1, e2⟩
          exact hp 6 (by decide) (Rat.ext (e1.symm.trans (by norm_num)) (e2.symm.trans (by norm_num)))
        · rintro ⟨e1, e2⟩
          exact hp 7 (by decide) (Rat.ext (e1.symm.trans (by norm_num)) (e2.symm.trans (by norm_num)))
        · rintro ⟨e1, e2⟩
          exact hq 0 (by decide) (Rat.ext (e1.symm.trans (by norm_num)) (e2.symm.trans (by norm_num)))
        · rintro ⟨e1, e2⟩
          exact hq 1 (by decide) (Rat.ext (e1.symm.trans (by norm_num)) (e2.symm.trans (by norm_num)))
        · rintro ⟨e1, e2⟩
          exact hq 2 (by decide) (Rat.ext (e1.symm.trans (by norm_num)) (e2.symm.trans (by norm_num)))
        · rintro ⟨e1, e2⟩
          exact hq 3 (by decide) (Rat.ext (e1.symm.trans (by norm_num)) (e2.symm.trans (by norm_num)))
        · rintro ⟨e1, e2⟩
          exact hq 4 (by decide) (Rat.ext (e1.symm.trans (by norm_num)) (e2.symm.trans (by norm_num)))
        · rintro ⟨e1, e2⟩
          exact hq 5 (by decide) (Rat.ext (e1.symm.trans (by norm_num)) (e2.symm.trans (by norm_num)))
        · rintro ⟨e1, e2⟩
          exact hq 6 (by decide) (Rat.ext (e1.symm.trans (by norm_num)) (e2.symm.trans (by norm_num)))
        · rintro ⟨e1, e2⟩
          exact hq 7 (by decide) (Rat.ext (e1.symm.trans (by norm_num)) (e2.symm.trans (by norm_num)))
      simp only [pack_small_imm, hfind, if_neg hnum]

/-- C9 witness: the accepted float 2.0 gets code 33 (within [0,47]),
and the out-of-table float 3.0 fails IllegalImmediate. -/
theorem pack_small_imm_spec_witness :
    (33 : Nat) ≤ 47 ∧ pack_small_imm (.float 3) = .error .illegalImmediate :=
  ⟨pack_small_imm_spec.2.2.1 (.float 2) 33 (by decide),
   pack_small_imm_spec.2.2.2 (.float 3) (by
     simp only [inSmallImmTable]
     push_neg
     refine ⟨by norm_num, ?_, ?_⟩
     · intro i hi
       simp only [Finset.mem_range] at hi
       interval_cases i <;> norm_num
     · intro i hi
       simp only [Finset.mem_range] at hi
       interval_cases i <;> norm_num)⟩

theorem lbit_le_one (v : Int) : lbit v ≤ 1 := by
  unfold lbit
  have h1 := Int.emod_nonneg v (by norm_num : (2:Int) ≠ 0)
  have h2 := Int.emod_lt_of_pos v (by norm_num : (0:Int) < 2)
  omega

theorem hbit_le_one (v : Int) : hbit v ≤ 1 := by
  unfold hbit
  have h1 := Int.emod_nonneg v (by norm_num : (4:Int) ≠ 0)
  have h2 := Int.emod_lt_of_pos v (by norm_num : (0:Int) < 4)
  omega

theorem lowBitsSum_lt (vs : List Int) : lowBitsSum vs < 2^vs.length := by
  induction vs with
  | nil => simp [lowBitsSum]
  | cons v vs ih =>
    simp only [lowBitsSum, List.length_cons]
    have hl : lbit v * 2^vs.length ≤ 2^vs.length := by
      have := Nat.mul_le_mul_right (2^vs.length) (lbit_le_one v)
      simpa using this
    have hpow : 2^(vs.length + 1) = 2^vs.length + 2^vs.length := by ring
    omega

/-- The MSB-first loop evaluated when every lane is in range. -/
theorem packLanes_ok (signed : Bool) (vs : List Int)
    (hgood : ∀ v ∈ vs, laneBad signed v = false) : ∀ h l,
    packLanes signed vs h l =
      .ok (h * 2^vs.length + highBitsSum vs, l * 2^vs.length + lowBitsSum vs) := by
  induction vs with
  | nil => intro h l; simp [packLanes, highBitsSum, lowBitsSum]
  | cons v vs ih =>
    intro h l
    have hv : laneBad signed v = false := hgood v (by simp)
    simp only [packLanes, hv, Bool.false_eq_true, if_false]
    rw [ih (fun x hx => hgood x (by simp [hx]))]
    refine congrArg Except.ok (Prod.ext ?_ ?_) <;>
      simp only [highBitsSum, lowBitsSum, List.length_cons] <;> ring

/-- The MSB-first loop fails on any out-of-range lane. -/
theorem packLanes_bad (signed : Bool) (vs : List Int)
    (hbad : ∃ v ∈ vs, laneBad signed v = true) : ∀ h l,
    packLanes signed vs h l = .error .notA2BitValue := by
  induction vs with
  | nil => simp at hbad
  | cons v vs ih =>
    intro h l
    by_cases hv : laneBad signed v = true
    · simp [packLanes, hv]
    · simp only [Bool.not_eq_true] at hv
      simp only [packLanes, hv, Bool.false_eq_true, if_false]
      rcases hbad with ⟨w, hw, hwbad⟩
      rcases List.mem_cons.mp hw with rfl | hw2
      · exact absurd hwbad (by simp [hv])
      · exact ih ⟨w, hw2, hwbad⟩ _ _

theorem lowBitsSum_eq_sum (vs : List Int) :
    lowBitsSum vs = ∑ i ∈ Finset.range vs.length, lbit (vs.getD i 0) * 2^(vs.length - 1 - i) := by
  induction vs with
  | nil => simp [lowBitsSum]
  | cons v vs ih =>
    simp only [lowBitsSum, List.length_cons]
    rw [Finset.sum_range_succ']
    simp only [List.getD_cons_succ, List.getD_cons_zero]
    have he : ∀ i : Nat, vs.length + 1 - 1 - (i + 1) = vs.length - 1 - i := by omega
    have hz : vs.length + 1 - 1 - 0 = vs.length := by omega
    rw [hz]
    have hsum : ∑ i ∈ Finset.range vs.length, lbit (vs.getD i 0) * 2^(vs.length + 1 - 1 - (i + 1))
        = ∑ i ∈ Finset.range vs.length, lbit (vs.getD i 0) * 2^(vs.length - 1 - i) :=
      Finset.sum_congr rfl (fun i _ => by rw [he i])
    rw [hsum, ← ih]
    ring

theorem highBitsSum_eq_sum (vs : List Int) :
    highBitsSum vs = ∑ i ∈ Finset.range vs.length, hbit (vs.getD i 0) * 2^(vs.length - 1 - i) := by
  induction vs with
  | nil => simp [highBitsSum]
  | cons v vs ih =>
    simp only [highBitsSum, List.length_cons]
    rw [Finset.sum_range_succ']
    simp only [List.getD_cons_succ, List.getD_cons_zero]
    have he : ∀ i : Nat, vs.length + 1 - 1 - (i + 1) = vs.length - 1 - i := by omega
    have hz : vs.length + 1 - 1 - 0 = vs.length := by omega
    rw [hz]
    have hsum : ∑ i ∈ Finset.range vs.length, hbit (vs.getD i 0) * 2^(vs.length + 1 - 1 - (i + 1))
        = ∑ i ∈ Finset.range vs.length, hbit (vs.getD i 0) * 2^(vs.length - 1 - i) :=
      Finset.sum_congr rfl (fun i _ => by rw [he i])
    rw [hsum, ← ih]
    ring

/-- Disjoint halves: shifting the high half left by 16 and or-ing in a
16-bit low half is plain addition. -/
theorem shiftLeft_lor_eq (a l : Nat) (h : l < 2^16) : a <<< 16 ||| l = a * 2^16 + l := by
  apply Nat.eq_of_testBit_eq
  intro j
  rw [Nat.testBit_lor, Nat.testBit_shiftLeft]
  have heq : a * 2^16 + l = 2^16 * a + l := by ring
  rw [heq, Nat.testBit_mul_pow_two_add a h]
  by_cases hj : j < 16
  · have : ¬(j ≥ 16) := by omega
    simp [hj, this]
  · have hge : j ≥ 16 := by omega
    have hl : l.testBit j = false :=
      Nat.testBit_lt_two_pow (lt_of_lt_of_le h (Nat.pow_le_pow_right (by norm_num) hge))
    simp [hj, hge, hl]

/-- The word the spec describes equals the two accumulated halves glued
at bit 16. -/
theorem vecWordSpec_eq (l : List Int) (hlen : l.length ≤ 16) :
    vecWordSpec l = highBitsSum (l ++ List.replicate (16 - l.length) 0) * 2^16 +
      lowBitsSum (l ++ List.replicate (16 - l.length) 0) := by
  have hplen : (l ++ List.replicate (16 - l.length) 0).length = 16 := by
    simp [List.length_append, List.length_replicate]
    omega
  unfold vecWordSpec
  rw [Finset.sum_add_distrib]
  rw [lowBitsSum_eq_sum, highBitsSum_eq_sum, hplen]
  have h31 : ∀ i ∈ Finset.range 16,
      hbit ((l ++ List.replicate (16 - l.length) 0).getD i 0) * 2^(31-i)
        = (hbit ((l ++ List.replicate (16 - l.length) 0).getD i 0) * 2^(16 - 1 - i)) * 2^16 := by
    intro i hi
    simp only [Finset.mem_range] at hi
    have : 31 - i = (16 - 1 - i) + 16 := by omega
    rw [this, pow_add]
    ring
  rw [Finset.sum_congr rfl h31, ← Finset.sum_mul]
  have h15 : ∀ i ∈ Finset.range 16,
      lbit ((l ++ List.replicate (16 - l.length) 0).getD i 0) * 2^(15-i)
        = lbit ((l ++ List.replicate (16 - l.length) 0).getD i 0) * 2^(16 - 1 - i) := by
    intro i hi
    have : (15 : Nat) - i = 16 - 1 - i := by omega
    rw [this]
  rw [Finset.sum_congr rfl h15]
  ring

/-- C5: `pack_imm` on a vector of more than 16 lanes fails
TooManyLanes; on at most 16 lanes it is signed iff some lane is
negative, fails if a signed lane leaves [-2,1] or an unsigned lane
leaves [0,3], zero-fills missing trailing lanes, accumulates the lanes
MSB-first (lane i's low bit at bit 15-i, high bit at bit 31-i), and
returns unpack code 1 for signed and 3 for unsigned vectors. -/
theorem pack_imm_vector_spec :
    (∀ l : List Int, 16 < l.length → pack_imm (.vec l) = .error .tooManyLanes) ∧
    (∀ l : List Int, l.length ≤ 16 →
      ((l ++ List.replicate (16 - l.length) 0).any (fun x => decide (x < 0)) = true ↔
        ∃ v ∈ l, v < 0) ∧
      (∀ signed : Bool,
        signed = (l ++ List.replicate (16 - l.length) 0).any (fun x => decide (x < 0)) →
        ((∀ v ∈ l ++ List.replicate (16 - l.length) 0,
            if signed then -2 ≤ v ∧ v ≤ 1 else 0 ≤ v ∧ v ≤ 3) →
          pack_imm (.vec l) = .ok (vecWordSpec l, if signed then 1 else 3)) ∧
        ((∃ v ∈ l ++ List.replicate (16 - l.length) 0,
            ¬(if signed then -2 ≤ v ∧ v ≤ 1 else 0 ≤ v ∧ v ≤ 3)) →
          pack_imm (.vec l) = .error .notA2BitValue))) := by
  constructor
  · intro l hl
    simp only [pack_imm]
    rw [if_pos hl]
  · intro l hlen
    have hnotlong : ¬(l.length > 16) := by omega
    have hanyiff : (l ++ List.replicate (16 - l.length) 0).any (fun x => decide (x < 0)) = true ↔
        ∃ v ∈ l, v < 0 := by
      simp only [List.any_append, Bool.or_eq_true, List.any_eq_true, decide_eq_true_eq]
      constructor
      · rintro (⟨v, hv, hvn⟩ | ⟨v, hv, hvn⟩)
        · exact ⟨v, hv, hvn⟩
        · have := List.eq_of_mem_replicate hv
          omega
      · rintro ⟨v, hv, hvn⟩
        exact Or.inl ⟨v, hv, hvn⟩
    refine ⟨hanyiff, ?_⟩
    intro signed hsigned
    have hnonneg : signed = false → ∀ v ∈ l ++ List.replicate (16 - l.length) 0, 0 ≤ v := by
      intro hf v hv
      rw [hf] at hsigned
      have := hsigned.symm
      rw [List.any_eq_false] at this
      have hx := this v hv
      simp only [decide_eq_true_eq] at hx
      omega
    have hbadiff : ∀ v, v ∈ l ++ List.replicate (16 - l.length) 0 →
        (laneBad signed v = true ↔ ¬(if signed then -2 ≤ v ∧ v ≤ 1 else 0 ≤ v ∧ v ≤ 3)) := by
      intro v hv
      cases signed with
      | true => simp [laneBad]; omega
      | false =>
        have h0 : 0 ≤ v := hnonneg rfl v hv
        simp [laneBad]
        omega
    constructor
    · intro hgood
      have hgoodb : ∀ v ∈ l ++ List.replicate (16 - l.length) 0, laneBad signed v = false := by
        intro v hv
        have := hgood v hv
        rcases Bool.eq_false_or_eq_true (laneBad signed v) with hb | hb
        · exact absurd this ((hbadiff v hv).mp hb)
        · exact hb
      simp only [pack_imm]
      rw [if_neg hnotlong, ← hsigned]
      rw [packLanes_ok signed _ hgoodb 0 0]
      have hplen : (l ++ List.replicate (16 - l.length) 0).length = 16 := by
        simp [List.length_append, List.length_replicate]
        omega
      simp only [Nat.zero_mul, Nat.zero_add]
      have hlow : lowBitsSum (l ++ List.replicate (16 - l.length) 0) < 2^16 := by
        have hlt := lowBitsSum_lt (l ++ List.replicate (16 - l.length) 0)
        rwa [hplen] at hlt
      rw [shiftLeft_lor_eq _ _ hlow]
      rw [vecWordSpec_eq l hlen]
      cases signed <;> simp
    · intro hbad
      rcases hbad with ⟨v, hv, hvbad⟩
      have hvb : laneBad signed v = true := (hbadiff v hv).mpr hvbad
      simp only [pack_imm]
      rw [if_neg hnotlong, ← hsigned]
      rw [packLanes_bad signed _ ⟨v, hv, hvb⟩ 0 0]

/-- C5 witness: the three-lane unsigned vector [1,2,3] is zero-filled
and packed with unpack code 3, and a 17-lane vector fails TooManyLanes. -/
theorem pack_imm_vector_spec_witness :
    pack_imm (.vec [1, 2, 3]) = .ok (vecWordSpec [1, 2, 3], 3) ∧
    pack_imm (.vec (List.replicate 17 0)) = .error .tooManyLanes := by
  constructor
  · have h := ((pack_imm_vector_spec.2 [1, 2, 3] (by decide)).2 false (by decide)).1 (by decide)
    simpa using h
  · exact pack_imm_vector_spec.1 (List.replicate 17 0) (by decide)

/-- Modifier loop invariants: a successful first loop implies no read
operand is packed, a nonzero incoming unpack code survives unchanged,
every unpacking operand agrees with the resulting code, and the
resulting unpack/pm pair is the last unpacking operand's (or the
incoming pair when there is none). -/
theorem phase1_charn (ops : List Operand) (u : Nat) (p : Bool) (u2 : Nat) (p2 : Bool)
    (h : phase1 ops u p = .ok (u2, p2)) :
    (∀ r, Operand.reg r ∈ ops → r.pack_bits = 0) ∧
    (u ≠ 0 → u2 = u) ∧
    (∀ r, Operand.reg r ∈ ops → r.unpack_bits ≠ 0 → r.unpack_bits = u2) ∧
    (lastUnpack ops = none → u2 = u ∧ p2 = p) ∧
    (∀ q, lastUnpack ops = some q → u2 = q.unpack_bits ∧ p2 = q.pm_bits) := by
  induction ops generalizing u p with
  | nil =>
    simp only [phase1] at h
    cases h
    exact ⟨fun r hr => by simp at hr, fun _ => rfl, fun r hr => by simp at hr,
      fun _ => ⟨rfl, rfl⟩, fun q hq => by simp [lastUnpack] at hq⟩
  | cons o ops ih =>
    cases o with
    | imm v =>
      simp only [phase1] at h
      obtain ⟨i1, i2, i3, i4, i5⟩ := ih _ _ h
      refine ⟨?_, i2, ?_, ?_, ?_⟩
      · intro r hr
        rcases List.mem_cons.mp hr with heq | hmem
        · simp at heq
        · exact i1 r hmem
      · intro r hr hru
        rcases List.mem_cons.mp hr with heq | hmem
        · simp at heq
        · exact i3 r hmem hru
      · intro hl
        simp only [lastUnpack] at hl
        exact i4 hl
      · intro q hq
        simp only [lastUnpack] at hq
        exact i5 q hq
    | reg r =>
      simp only [phase1] at h
      by_cases hpk : r.pack_bits ≠ 0
      · rw [if_pos hpk] at h; cases h
      · rw [if_neg hpk] at h
        push_neg at hpk
        by_cases hup : r.unpack_bits ≠ 0
        · rw [if_pos hup] at h
          by_cases hcond : u ≠ 0 ∧ r.unpack_bits ≠ u
          · rw [if_pos hcond] at h; cases h
          · rw [if_neg hcond] at h
            obtain ⟨i1, i2, i3, i4, i5⟩ := ih _ _ h
            have hu2 : u2 = r.unpack_bits := i2 hup
            refine ⟨?_, ?_, ?_, ?_, ?_⟩
            · intro s hs
              rcases List.mem_cons.mp hs with heq | hmem
              · injection heq with h2; rw [h2]; exact hpk
              · exact i1 s hmem
            · intro hu0
              push_neg at hcond
              rw [hu2, hcond hu0]
            · intro s hs hsu
              rcases List.mem_cons.mp hs with heq | hmem
              · injection heq with h2; rw [h2, hu2]
              · exact i3 s hmem hsu
            · intro hl
              simp only [lastUnpack] at hl
              cases hlu : lastUnpack ops with
              | some q => rw [hlu] at hl; cases hl
              | none => rw [hlu] at hl; rw [if_pos hup] at hl; cases hl
            · intro q hq
              simp only [lastUnpack] at hq
              cases hlu : lastUnpack ops with
              | some s =>
                rw [hlu] at hq
                cases hq
                exact i5 _ hlu
              | none =>
                rw [hlu] at hq
                rw [if_pos hup] at hq
                cases hq
                exact ⟨hu2, (i4 hlu).2⟩
        · rw [if_neg hup] at h
          push_neg at hup
          obtain ⟨i1, i2, i3, i4, i5⟩ := ih _ _ h
          refine ⟨?_, i2, ?_, ?_, ?_⟩
          · intro s hs
            rcases List.mem_cons.mp hs with heq | hmem
            · injection heq with h2; rw [h2]; exact hpk
            · exact i1 s hmem
          · intro s hs hsu
            rcases List.mem_cons.mp hs with heq | hmem
            · injection heq with h2; rw [h2] at hsu; exact absurd hup hsu
            · exact i3 s hmem hsu
          · intro hl
            simp only [lastUnpack] at hl
            cases hlu : lastUnpack ops with
            | some q => rw [hlu] at hl; cases hl
            | none =>
              rw [hlu] at hl
              exact i4 hlu
          · intro q hq
            simp only [lastUnpack] at hq
            cases hlu : lastUnpack ops with
            | some s =>
              rw [hlu] at hq
              cases hq
              exact i5 _ hlu
            | none =>
              rw [hlu] at hq
              rw [if_neg (by simp [hup])] at hq
              cases hq

/-- A failing modifier loop over pack-free operands can only report
MultipleUnpacking. -/
theorem phase1_error_name (ops : List Operand) (u : Nat) (p : Bool) (e : Err)
    (h : phase1 ops u p = .error e)
    (hnp : ∀ r, Operand.reg r ∈ ops → r.pack_bits = 0) : e = .multipleUnpacking := by
  induction ops generalizing u p with
  | nil => simp [phase1] at h
  | cons o ops ih =>
    cases o with
    | imm v =>
      simp only [phase1] at h
      exact ih _ _ h (fun r hr => hnp r (List.mem_cons_of_mem _ hr))
    | reg r =>
      simp only [phase1] at h
      rw [if_neg (by simp [hnp r (List.mem_cons_self _ _)])] at h
      by_cases hup : r.unpack_bits ≠ 0
      · rw [if_pos hup] at h
        by_cases hcond : u ≠ 0 ∧ r.unpack_bits ≠ u
        · rw [if_pos hcond] at h
          injection h with h2
          exact h2.symm
        · rw [if_neg hcond] at h
          exact ih _ _ h (fun s hs => hnp s (List.mem_cons_of_mem _ hs))
      · rw [if_neg hup] at h
        exact ih _ _ h (fun s hs => hnp s (List.mem_cons_of_mem _ hs))

/-- File-constrained placement invariants: the third loop only ever
confirms an already-committed raddr slot, and commits each small
immediate (to raddr_b, with the immed flag raised) and each
single-file register to its unique file slot. -/
theorem phase2_charn (l : List (Option Nat × Operand)) (st : LocSt) (ms : List (Option Nat))
    (st2 : LocSt) (h : phase2 l st = .ok (ms, st2)) :
    (∀ x, st.raddr_a = some x → st2.raddr_a = some x) ∧
    (∀ x, st.raddr_b = some x → st2.raddr_b = some x) ∧
    (st.immed = true → st2.immed = true) ∧
    (∀ v, (none, Operand.imm v) ∈ l → st2.immed = true ∧
      ∃ c, pack_small_imm v = .ok c ∧ st2.raddr_b = some c) ∧
    (∀ r, (none, Operand.reg r) ∈ l → AonlyRead r → st2.raddr_a = some r.addr) ∧
    (∀ r, (none, Operand.reg r) ∈ l → BonlyRead r → st2.raddr_b = some r.addr) := by
  induction l generalizing st ms st2 with
  | nil =>
    simp only [phase2] at h
    cases h
    exact ⟨fun x hx => hx, fun x hx => hx, id,
      fun v hv => by simp at hv, fun r hr _ => by simp at hr, fun r hr _ => by simp at hr⟩
  | cons hd tl ih =>
    obtain ⟨m, o⟩ := hd
    cases m with
    | some mv =>
      simp only [phase2] at h
      cases h2 : phase2 tl st with
      | error e => rw [h2] at h; simp [Except.map] at h
      | ok pr =>
        obtain ⟨ms2, stf⟩ := pr
        rw [h2] at h
        simp only [Except.map] at h
        cases h
        obtain ⟨i1, i2, i3, i4, i5, i6⟩ := ih _ _ _ h2
        refine ⟨i1, i2, i3, ?_, ?_, ?_⟩
        · intro v hv
          rcases List.mem_cons.mp hv with heq | hmem
          · simp at heq
          · exact i4 v hmem
        · intro r hr hra
          rcases List.mem_cons.mp hr with heq | hmem
          · simp at heq
          · exact i5 r hmem hra
        · intro r hr hrb
          rcases List.mem_cons.mp hr with heq | hmem
          · simp at heq
          · exact i6 r hmem hrb
    | none =>
      cases o with
      | imm v =>
        cases hpk : pack_small_imm v with
        | error e => simp [phase2, hpk] at h
        | ok code =>
          cases hrb : st.raddr_b with
          | some b =>
            simp only [phase2, hpk, hrb] at h
            by_cases hcond : st.immed = true ∧ b = code
            · rw [if_pos hcond] at h
              cases h3 : phase2 tl ⟨st.raddr_a, some code, true⟩ with
              | error e => rw [h3] at h; simp [Except.map] at h
              | ok pr =>
                obtain ⟨ms2, stf⟩ := pr
                rw [h3] at h
                simp only [Except.map] at h
                cases h
                obtain ⟨i1, i2, i3, i4, i5, i6⟩ := ih _ _ _ h3
                have hrb2 : st2.raddr_b = some code := i2 code rfl
                refine ⟨i1, ?_, fun _ => i3 rfl, ?_, ?_, ?_⟩
                · intro x hx
                  injection hx with hx2
                  rw [← hx2, hcond.2]
                  exact hrb2
                · intro w hw
                  rcases List.mem_cons.mp hw with heq | hmem
                  · simp only [Prod.mk.injEq] at heq
                    injection heq.2 with h7
                    rw [h7]
                    exact ⟨i3 rfl, code, hpk, hrb2⟩
                  · exact i4 w hmem
                · intro s hs hsa
                  rcases List.mem_cons.mp hs with heq | hmem
                  · simp at heq
                  · exact i5 s hmem hsa
                · intro s hs hsb
                  rcases List.mem_cons.mp hs with heq | hmem
                  · simp at heq
                  · exact i6 s hmem hsb
            · rw [if_neg hcond] at h
              cases h
          | none =>
            simp only [phase2, hpk, hrb] at h
            cases h3 : phase2 tl ⟨st.raddr_a, some code, true⟩ with
            | error e => rw [h3] at h; simp [Except.map] at h
            | ok pr =>
              obtain ⟨ms2, stf⟩ := pr
              rw [h3] at h
              simp only [Except.map] at h
              cases h
              obtain ⟨i1, i2, i3, i4, i5, i6⟩ := ih _ _ _ h3
              have hrb2 : st2.raddr_b = some code := i2 code rfl
              refine ⟨i1, ?_, fun _ => i3 rfl, ?_, ?_, ?_⟩
              · intro x hx
                cases hx
              · intro w hw
                rcases List.mem_cons.mp hw with heq | hmem
                · simp only [Prod.mk.injEq] at heq
                  injection heq.2 with h7
                  rw [h7]
                  exact ⟨i3 rfl, code, hpk, hrb2⟩
                · exact i4 w hmem
              · intro s hs hsa
                rcases List.mem_cons.mp hs with heq | hmem
                · simp at heq
                · exact i5 s hmem hsa
              · intro s hs hsb
                rcases List.mem_cons.mp hs with heq | hmem
                · simp at heq
                · exact i6 s hmem hsb
      | reg r =>
        by_cases hA : r.spec &&& REG_AR ≠ 0 ∧ r.spec &&& REG_BR = 0
        · cases hra : st.raddr_a with
          | some a =>
            simp only [phase2, hra, if_pos hA] at h
            by_cases hne : a ≠ r.addr
            · rw [if_pos hne] at h; cases h
            · rw [if_neg hne] at h
              push_neg at hne
              cases h3 : phase2 tl ⟨some r.addr, st.raddr_b, st.immed⟩ with
              | error e => rw [h3] at h; simp [Except.map] at h
              | ok pr =>
                obtain ⟨ms2, stf⟩ := pr
                rw [h3] at h
                simp only [Except.map] at h
                cases h
                obtain ⟨i1, i2, i3, i4, i5, i6⟩ := ih _ _ _ h3
                have hra2 : st2.raddr_a = some r.addr := i1 r.addr rfl
                refine ⟨?_, i2, i3, ?_, ?_, ?_⟩
                · intro x hx
                  injection hx with hx2
                  rw [← hx2, hne]
                  exact hra2
                · intro w hw
                  rcases List.mem_cons.mp hw with heq | hmem
                  · simp at heq
                  · exact i4 w hmem
                · intro s hs hsa
                  rcases List.mem_cons.mp hs with heq | hmem
                  · simp only [Prod.mk.injEq] at heq
                    injection heq.2 with h7
                    rw [h7]
                    exact hra2
                  · exact i5 s hmem hsa
                · intro s hs hsb
                  rcases List.mem_cons.mp hs with heq | hmem
                  · simp only [Prod.mk.injEq] at heq
                    injection heq.2 with h7
                    rw [h7] at hsb
                    exact absurd hsb.1 hA.1
                  · exact i6 s hmem hsb
          | none =>
            simp only [phase2, hra, if_pos hA] at h
            cases h3 : phase2 tl ⟨some r.addr, st.raddr_b, st.immed⟩ with
            | error e => rw [h3] at h; simp [Except.map] at h
            | ok pr =>
              obtain ⟨ms2, stf⟩ := pr
              rw [h3] at h
              simp only [Except.map] at h
              cases h
              obtain ⟨i1, i2, i3, i4, i5, i6⟩ := ih _ _ _ h3
              have hra2 : st2.raddr_a = some r.addr := i1 r.addr rfl
              refine ⟨?_, i2, i3, ?_, ?_, ?_⟩
              · intro x hx
                cases hx
              · intro w hw
                rcases List.mem_cons.mp hw with heq | hmem
                · simp at heq
                · exact i4 w hmem
              · intro s hs hsa
                rcases List.mem_cons.mp hs with heq | hmem
                · simp only [Prod.mk.injEq] at heq
                  injection heq.2 with h7
                  rw [h7]
                  exact hra2
                · exact i5 s hmem hsa
              · intro s hs hsb
                rcases List.mem_cons.mp hs with heq | hmem
                · simp only [Prod.mk.injEq] at heq
                  injection heq.2 with h7
                  rw [h7] at hsb
                  exact absurd hsb.1 hA.1
                · exact i6 s hmem hsb
        · by_cases hB : r.spec &&& REG_AR = 0 ∧ r.spec &&& REG_BR ≠ 0
          · cases hrb : st.raddr_b with
            | some b =>
              simp only [phase2, hrb, if_neg hA, if_pos hB] at h
              by_cases hne : b ≠ r.addr
              · rw [if_pos hne] at h; cases h
              · rw [if_neg hne] at h
                push_neg at hne
                cases h3 : phase2 tl ⟨st.raddr_a, some r.addr, st.immed⟩ with
                | error e => rw [h3] at h; simp [Except.map] at h
                | ok pr =>
                  obtain ⟨ms2, stf⟩ := pr
                  rw [h3] at h
                  simp only [Except.map] at h
                  cases h
                  obtain ⟨i1, i2, i3, i4, i5, i6⟩ := ih _ _ _ h3
                  have hrb2 : st2.raddr_b = some r.addr := i2 r.addr rfl
                  refine ⟨i1, ?_, i3, ?_, ?_, ?_⟩
                  · intro x hx
                    injection hx with hx2
                    rw [← hx2, hne]
                    exact hrb2
                  · intro w hw
                    rcases List.mem_cons.mp hw with heq | hmem
                    · simp at heq
                    · exact i4 w hmem
                  · intro s hs hsa
                    rcases List.mem_cons.mp hs with heq | hmem
                    · simp only [Prod.mk.injEq] at heq
                      injection heq.2 with h7
                      rw [h7] at hsa
                      exact absurd hB.1 hsa.1
                    · exact i5 s hmem hsa
                  · intro s hs hsb
                    rcases List.mem_cons.mp hs with heq | hmem
                    · simp only [Prod.mk.injEq] at heq
                      injection heq.2 with h7
                      rw [h7]
                      exact hrb2
                    · exact i6 s hmem hsb
            | none =>
              simp only [phase2, hrb, if_neg hA, if_pos hB] at h
              cases h3 : phase2 tl ⟨st.raddr_a, some r.addr, st.immed⟩ with
              | error e => rw [h3] at h; simp [Except.map] at h
              | ok pr =>
                obtain ⟨ms2, stf⟩ := pr
                rw [h3] at h
                simp only [Except.map] at h
                cases h
                obtain ⟨i1, i2, i3, i4, i5, i6⟩ := ih _ _ _ h3
                have hrb2 : st2.raddr_b = some r.addr := i2 r.addr rfl
                refine ⟨i1, ?_, i3, ?_, ?_, ?_⟩
                · intro x hx
                  cases hx
                · intro w hw
                  rcases List.mem_cons.mp hw with heq | hmem
                  · simp at heq
                  · exact i4 w hmem
                · intro s hs hsa
                  rcases List.mem_cons.mp hs with heq | hmem
                  · simp only [Prod.mk.injEq] at heq
                    injection heq.2 with h7
                    rw [h7] at hsa
                    exact absurd hB.1 hsa.1
                  · exact i5 s hmem hsa
                · intro s hs hsb
                  rcases List.mem_cons.mp hs with heq | hmem
                  · simp only [Prod.mk.injEq] at heq
                    injection heq.2 with h7
                    rw [h7]
                    exact hrb2
                  · exact i6 s hmem hsb
          · simp only [phase2, if_neg hA, if_neg hB] at h
            cases h2 : phase2 tl st with
            | error e => rw [h2] at h; simp [Except.map] at h
            | ok pr =>
              obtain ⟨ms2, stf⟩ := pr
              rw [h2] at h
              simp only [Except.map] at h
              cases h
              obtain ⟨i1, i2, i3, i4, i5, i6⟩ := ih _ _ _ h2
              refine ⟨i1, i2, i3, ?_, ?_, ?_⟩
              · intro w hw
                rcases List.mem_cons.mp hw with heq | hmem
                · simp at heq
                · exact i4 w hmem
              · intro s hs hsa
                rcases List.mem_cons.mp hs with heq | hmem
                · simp only [Prod.mk.injEq] at heq
                  injection heq.2 with h7
                  rw [h7] at hsa
                  exact absurd hsa hA
                · exact i5 s hmem hsa
              · intro s hs hsb
                rcases List.mem_cons.mp hs with heq | hmem
                · simp only [Prod.mk.injEq] at heq
                  injection heq.2 with h7
                  rw [h7] at hsb
                  exact absurd hsb hB
                · exact i6 s hmem hsb

/-- The final placement loop never overwrites an raddr slot that is
already committed. -/
theorem phase3_preserve (l : List (Option Nat × Operand)) (a b : Option Nat)
    (ms : List Nat) (rab : Option Nat × Option Nat)
    (h : phase3 l a b = .ok (ms, rab)) :
    (∀ x, a = some x → rab.1 = some x) ∧ (∀ x, b = some x → rab.2 = some x) := by
  induction l generalizing a b ms rab with
  | nil =>
    simp only [phase3] at h
    cases h
    exact ⟨fun x hx => hx, fun x hx => hx⟩
  | cons hd tl ih =>
    obtain ⟨m, o⟩ := hd
    cases m with
    | some mv =>
      simp only [phase3] at h
      cases h2 : phase3 tl a b with
      | error e => rw [h2] at h; simp [Except.map] at h
      | ok pr =>
        rw [h2] at h
        simp only [Except.map] at h
        cases h
        exact ih _ _ _ _ h2
    | none =>
      cases o with
      | imm v => simp [phase3] at h
      | reg r =>
        simp only [phase3] at h
        by_cases h0 : r.spec &&& (REG_AR ||| REG_BR) = 0
        · rw [if_pos h0] at h; cases h
        · rw [if_neg h0] at h
          by_cases hA : a = none ∧ r.spec &&& REG_AR ≠ 0
          · rw [if_pos hA] at h
            cases h2 : phase3 tl (some r.addr) b with
            | error e => rw [h2] at h; simp [Except.map] at h
            | ok pr =>
              rw [h2] at h
              simp only [Except.map] at h
              cases h
              obtain ⟨p1, p2⟩ := ih _ _ _ _ h2
              refine ⟨?_, p2⟩
              intro x hx
              rw [hA.1] at hx
              cases hx
          · rw [if_neg hA] at h
            by_cases hB : b = none ∧ r.spec &&& REG_BR ≠ 0
            · rw [if_pos hB] at h
              cases h2 : phase3 tl a (some r.addr) with
              | error e => rw [h2] at h; simp [Except.map] at h
              | ok pr =>
                rw [h2] at h
                simp only [Except.map] at h
                cases h
                obtain ⟨p1, p2⟩ := ih _ _ _ _ h2
                refine ⟨p1, ?_⟩
                intro x hx
                rw [hB.1] at hx
                cases hx
            · rw [if_neg hB] at h; cases h

/-- Pairing an operand with its accumulator pre-assignment lands in the
zipped list the placement loops walk. -/
theorem mem_zip_map (f : Operand → Option Nat) (l : List Operand) (o : Operand) (ho : o ∈ l) :
    (f o, o) ∈ (l.map f).zip l := by
  induction l with
  | nil => simp at ho
  | cons x xs ih =>
    rcases List.mem_cons.mp ho with rfl | hm
    · simp
    · simp only [List.map_cons, List.zip_cons_cons]
      exact List.mem_cons_of_mem _ (ih hm)

/-- Decomposition of a successful read placement into its loop results:
the modifier pair from the first loop, and either the all-accumulator
early return or the phase2/phase3 chain. -/
theorem locate_ok_decomp (o1 o2 o3 o4 : Operand) (out : ReadLoc)
    (h : locate_read_operands o1 o2 o3 o4 = .ok out) :
    ∃ u p, phase1 [o1, o2, o3, o4] 0 false = .ok (u, p) ∧ out.unpack = u ∧ out.pm = p ∧
      (((initMux o1).isSome ∧ (initMux o2).isSome ∧ (initMux o3).isSome ∧ (initMux o4).isSome ∧
         out.raddr_a = 39 ∧ out.raddr_b = 39 ∧ out.immed = false) ∨
       (∃ ms st rab mux2,
         phase2 ((List.map initMux [o1, o2, o3, o4]).zip [o1, o2, o3, o4]) ⟨none, none, false⟩ = .ok (ms, st) ∧
         phase3 (ms.zip [o1, o2, o3, o4]) st.raddr_a st.raddr_b = .ok (mux2, rab) ∧
         out.raddr_a = rab.1.getD 39 ∧ out.raddr_b = rab.2.getD 39 ∧ out.immed = st.immed)) := by
  simp only [locate_read_operands, bind, Except.bind] at h
  cases h1 : phase1 [o1, o2, o3, o4] 0 false with
  | error e => simp [h1] at h
  | ok up =>
    obtain ⟨u, p⟩ := up
    simp only [h1] at h
    refine ⟨u, p, rfl, ?_⟩
    by_cases hall : (List.map initMux [o1, o2, o3, o4]).all Option.isSome
    · rw [if_pos hall] at h
      simp only [List.map_cons, List.map_nil] at h
      simp only [List.map_cons, List.map_nil, List.all_cons, List.all_nil,
        Bool.and_eq_true, and_true] at hall
      cases h
      exact ⟨rfl, rfl, Or.inl ⟨hall.1, hall.2.1, hall.2.2.1, hall.2.2.2, rfl, rfl, rfl⟩⟩
    · rw [if_neg hall] at h
      cases h2 : phase2 ((List.map initMux [o1, o2, o3, o4]).zip [o1, o2, o3, o4])
          ⟨none, none, false⟩ with
      | error e => rw [h2] at h; simp at h
      | ok pr =>
        obtain ⟨ms, st⟩ := pr
        simp only [h2] at h
        cases h3 : phase3 (ms.zip [o1, o2, o3, o4]) st.raddr_a st.raddr_b with
        | error e => simp [h3] at h
        | ok pr2 =>
          obtain ⟨mux2, rab⟩ := pr2
          simp only [h3] at h
          split at h
          next a b c d =>
            cases h
            exact ⟨rfl, rfl, Or.inr ⟨ms, st, rab, [a, b, c, d], rfl, h3, rfl, rfl, rfl⟩⟩
          next => cases h

/-- A failing modifier loop propagates out of the whole read placement
unchanged (the first loop runs before anything else). -/
theorem locate_phase1_error (o1 o2 o3 o4 : Operand) (e : Err)
    (h1 : phase1 [o1, o2, o3, o4] 0 false = .error e) :
    locate_read_operands o1 o2 o3 o4 = .error e := by
  simp only [locate_read_operands, bind, Except.bind, h1]

/-- On success, every small-immediate operand raised the immed flag and
put its code in raddr_b, and every register readable from exactly one
file (and not mux-assigned as an accumulator) put its address in that
file's raddr slot. -/
theorem locate_commit (o1 o2 o3 o4 : Operand) (out : ReadLoc)
    (h : locate_read_operands o1 o2 o3 o4 = .ok out) :
    (∀ v, Operand.imm v ∈ [o1, o2, o3, o4] → out.immed = true ∧
      pack_small_imm v = .ok out.raddr_b) ∧
    (∀ r, Operand.reg r ∈ [o1, o2, o3, o4] → ACCUMURATOR_CODES r.name = none →
      (AonlyRead r → out.raddr_a = r.addr) ∧ (BonlyRead r → out.raddr_b = r.addr)) := by
  obtain ⟨u, p, h1, hu, hp, hcase⟩ := locate_ok_decomp o1 o2 o3 o4 out h
  rcases hcase with ⟨s1, s2, s3, s4, hra, hrb, him⟩ | ⟨ms, st, rab, mux2, h2, h3, hra, hrb, him⟩
  · constructor
    · intro v hv
      exfalso
      simp only [List.mem_cons, List.not_mem_nil, or_false] at hv
      rcases hv with hv | hv | hv | hv <;>
        first
        | (rw [← hv] at s1; simp [initMux] at s1)
        | (rw [← hv] at s2; simp [initMux] at s2)
        | (rw [← hv] at s3; simp [initMux] at s3)
        | (rw [← hv] at s4; simp [initMux] at s4)
    · intro r hr hacc
      exfalso
      simp only [List.mem_cons, List.not_mem_nil, or_false] at hr
      rcases hr with hr | hr | hr | hr <;>
        first
        | (rw [← hr] at s1; simp [initMux, hacc] at s1)
        | (rw [← hr] at s2; simp [initMux, hacc] at s2)
        | (rw [← hr] at s3; simp [initMux, hacc] at s3)
        | (rw [← hr] at s4; simp [initMux, hacc] at s4)
  · obtain ⟨i1, i2, i3, i4, i5, i6⟩ := phase2_charn _ _ _ _ h2
    obtain ⟨p1, p2⟩ := phase3_preserve _ _ _ _ _ h3
    constructor
    · intro v hv
      have hz := mem_zip_map initMux [o1, o2, o3, o4] (Operand.imm v) hv
      rw [show initMux (Operand.imm v) = none from rfl] at hz
      obtain ⟨hi, c, hc, hb⟩ := i4 v hz
      have hb2 := p2 c hb
      refine ⟨by rw [him]; exact hi, ?_⟩
      rw [hrb, hb2]
      exact hc
    · intro r hr hacc
      have hz := mem_zip_map initMux [o1, o2, o3, o4] (Operand.reg r) hr
      rw [show initMux (Operand.reg r) = ACCUMURATOR_CODES r.name from rfl, hacc] at hz
      constructor
      · intro hA
        have ha := i5 r hz hA
        have ha2 := p1 r.addr ha
        rw [hra, ha2]
        rfl
      · intro hB
        have hb := i6 r hz hB
        have hb2 := p2 r.addr hb
        rw [hrb, hb2]
        rfl

/-- Two A-only read registers with different addresses (in the add-pipe
slots) fail TooManyRegfileA, whatever the other operands, provided the
modifier loop passes. -/
theorem locate_two_aonly_error (r q : Register) (o3 o4 : Operand) (u : Nat) (p : Bool)
    (h1 : phase1 [.reg r, .reg q, o3, o4] 0 false = .ok (u, p))
    (hra : AonlyRead r) (hrq : AonlyRead q)
    (haccr : ACCUMURATOR_CODES r.name = none) (haccq : ACCUMURATOR_CODES q.name = none)
    (hne : r.addr ≠ q.addr) :
    locate_read_operands (.reg r) (.reg q) o3 o4 = .error .tooManyRegfileA := by
  simp only [locate_read_operands, bind, Except.bind, h1]
  have hnall : ¬((List.map initMux [Operand.reg r, Operand.reg q, o3, o4]).all Option.isSome = true) := by
    simp [initMux, haccr]
  rw [if_neg hnall]
  have hzip : (List.map initMux [Operand.reg r, Operand.reg q, o3, o4]).zip
      [Operand.reg r, Operand.reg q, o3, o4]
      = (none, Operand.reg r) :: (none, Operand.reg q) :: [(initMux o3, o3), (initMux o4, o4)] := by
    simp [initMux, haccr, haccq]
  rw [hzip]
  have hstep : phase2 ((none, Operand.reg r) :: (none, Operand.reg q) ::
      [(initMux o3, o3), (initMux o4, o4)]) ⟨none, none, false⟩ = .error .tooManyRegfileA := by
    rw [show phase2 ((none, Operand.reg r) :: (none, Operand.reg q) ::
        [(initMux o3, o3), (initMux o4, o4)]) ⟨none, none, false⟩
      = if r.spec &&& REG_AR ≠ 0 ∧ r.spec &&& REG_BR = 0 then
          (phase2 ((none, Operand.reg q) :: [(initMux o3, o3), (initMux o4, o4)])
            ⟨some r.addr, none, false⟩).map
              (fun p => (some INPUT_MUX_REGFILE_A :: p.1, p.2))
        else if r.spec &&& REG_AR = 0 ∧ r.spec &&& REG_BR ≠ 0 then
          (phase2 ((none, Operand.reg q) :: [(initMux o3, o3), (initMux o4, o4)])
            ⟨none, some r.addr, false⟩).map
              (fun p => (some INPUT_MUX_REGFILE_B :: p.1, p.2))
        else (phase2 ((none, Operand.reg q) :: [(initMux o3, o3), (initMux o4, o4)])
            ⟨none, none, false⟩).map (fun p => (none :: p.1, p.2)) from rfl]
    rw [if_pos ⟨hra.1, hra.2⟩]
    rw [show phase2 ((none, Operand.reg q) :: [(initMux o3, o3), (initMux o4, o4)])
        ⟨some r.addr, none, false⟩
      = if q.spec &&& REG_AR ≠ 0 ∧ q.spec &&& REG_BR = 0 then
          (if r.addr ≠ q.addr then (.error .tooManyRegfileA : Except Err (List (Option Nat) × LocSt))
           else (phase2 [(initMux o3, o3), (initMux o4, o4)] ⟨some q.addr, none, false⟩).map
              (fun p => (some INPUT_MUX_REGFILE_A :: p.1, p.2)))
        else if q.spec &&& REG_AR = 0 ∧ q.spec &&& REG_BR ≠ 0 then
          (phase2 [(initMux o3, o3), (initMux o4, o4)] ⟨some r.addr, some q.addr, false⟩).map
              (fun p => (some INPUT_MUX_REGFILE_B :: p.1, p.2))
        else (phase2 [(initMux o3, o3), (initMux o4, o4)] ⟨some r.addr, none, false⟩).map
            (fun p => (none :: p.1, p.2)) from rfl]
    rw [if_pos ⟨hrq.1, hrq.2⟩, if_pos hne]
    simp [Except.map]
  rw [hstep]

/-- Two B-only read registers with different addresses (in the add-pipe
slots) fail TooManyRegfileB, whatever the other operands, provided the
modifier loop passes. -/
theorem locate_two_bonly_error (r q : Register) (o3 o4 : Operand) (u : Nat) (p : Bool)
    (h1 : phase1 [.reg r, .reg q, o3, o4] 0 false = .ok (u, p))
    (hrb : BonlyRead r) (hrq : BonlyRead q)
    (haccr : ACCUMURATOR_CODES r.name = none) (haccq : ACCUMURATOR_CODES q.name = none)
    (hne : r.addr ≠ q.addr) :
    locate_read_operands (.reg r) (.reg q) o3 o4 = .error .tooManyRegfileB := by
  simp only [locate_read_operands, bind, Except.bind, h1]
  have hnall : ¬((List.map initMux [Operand.reg r, Operand.reg q, o3, o4]).all Option.isSome = true) := by
    simp [initMux, haccr]
  rw [if_neg hnall]
  have hzip : (List.map initMux [Operand.reg r, Operand.reg q, o3, o4]).zip
      [Operand.reg r, Operand.reg q, o3, o4]
      = (none, Operand.reg r) :: (none, Operand.reg q) :: [(initMux o3, o3), (initMux o4, o4)] := by
    simp [initMux, haccr, haccq]
  rw [hzip]
  have hstep : phase2 ((none, Operand.reg r) :: (none, Operand.reg q) ::
      [(initMux o3, o3), (initMux o4, o4)]) ⟨none, none, false⟩ = .error .tooManyRegfileB := by
    rw [show phase2 ((none, Operand.reg r) :: (none, Operand.reg q) ::
        [(initMux o3, o3), (initMux o4, o4)]) ⟨none, none, false⟩
      = if r.spec &&& REG_AR ≠ 0 ∧ r.spec &&& REG_BR = 0 then
          (phase2 ((none, Operand.reg q) :: [(initMux o3, o3), (initMux o4, o4)])
            ⟨some r.addr, none, false⟩).map
              (fun p => (some INPUT_MUX_REGFILE_A :: p.1, p.2))
        else if r.spec &&& REG_AR = 0 ∧ r.spec &&& REG_BR ≠ 0 then
          (phase2 ((none, Operand.reg q) :: [(initMux o3, o3), (initMux o4, o4)])
            ⟨none, some r.addr, false⟩).map
              (fun p => (some INPUT_MUX_REGFILE_B :: p.1, p.2))
        else (phase2 ((none, Operand.reg q) :: [(initMux o3, o3), (initMux o4, o4)])
            ⟨none, none, false⟩).map (fun p => (none :: p.1, p.2)) from rfl]
    rw [if_neg (fun hc => hc.1 hrb.1), if_pos ⟨hrb.1, hrb.2⟩]
    rw [show phase2 ((none, Operand.reg q) :: [(initMux o3, o3), (initMux o4, o4)])
        ⟨none, some r.addr, false⟩
      = if q.spec &&& REG_AR ≠ 0 ∧ q.spec &&& REG_BR = 0 then
          (phase2 [(initMux o3, o3), (initMux o4, o4)] ⟨some q.addr, some r.addr, false⟩).map
              (fun p => (some INPUT_MUX_REGFILE_A :: p.1, p.2))
        else if q.spec &&& REG_AR = 0 ∧ q.spec &&& REG_BR ≠ 0 then
          (if r.addr ≠ q.addr then (.error .tooManyRegfileB : Except Err (List (Option Nat) × LocSt))
           else (phase2 [(initMux o3, o3), (initMux o4, o4)] ⟨none, some q.addr, false⟩).map
              (fun p => (some INPUT_MUX_REGFILE_B :: p.1, p.2)))
        else (phase2 [(initMux o3, o3), (initMux o4, o4)] ⟨none, some r.addr, false⟩).map
            (fun p => (none :: p.1, p.2)) from rfl]
    rw [if_neg (fun hc => hc.1 hrq.1), if_pos ⟨hrq.1, hrq.2⟩, if_pos hne]
    simp [Except.map]
  rw [hstep]

/-- C3 counterexample: a small-immediate operand (float 1.0, code 32)
and the non-immediate register rb32 (address 32) mix on raddr_b and the
call succeeds, contradicting the claim that every call mixing an
immediate and a non-immediate register operand on raddr_b fails. -/
theorem read_mixing_succeeds :
    locate_read_operands (.imm (.float 1)) (.reg (rb 32)) (.reg r0) (.reg r0)
      = .ok ⟨7, 7, 0, 0, 39, 32, true, 0, false⟩ := by
  decide

/-- C3 (amended): on every successful read placement, each register
operand readable from exactly one file (and not named as an
accumulator) is committed to that file's raddr slot; a small immediate
raises the immed flag and its 6-bit code is the returned raddr_b, so a
successful call mixing an immediate and a B-only register requires the
register's address to equal the immediate's code (the equality is
necessary, not sufficient: with the register operand placed before the
immediate the same pair still fails TooManyRegfileB, because the
register commits raddr_b while the immed flag is still down); two
A-only (resp. B-only) registers with different addresses fail
TooManyRegfileA (resp. TooManyRegfileB); and the cited concrete
examples behave as stated. -/
theorem read_operand_file_commitment :
    (∀ o1 o2 o3 o4 out, locate_read_operands o1 o2 o3 o4 = .ok out →
      (∀ v, Operand.imm v ∈ [o1, o2, o3, o4] → out.immed = true ∧
        pack_small_imm v = .ok out.raddr_b) ∧
      (∀ r, Operand.reg r ∈ [o1, o2, o3, o4] → ACCUMURATOR_CODES r.name = none →
        (AonlyRead r → out.raddr_a = r.addr) ∧ (BonlyRead r → out.raddr_b = r.addr))) ∧
    (∀ r q o3 o4 u p, phase1 [.reg r, .reg q, o3, o4] 0 false = .ok (u, p) →
      AonlyRead r → AonlyRead q →
      ACCUMURATOR_CODES r.name = none → ACCUMURATOR_CODES q.name = none → r.addr ≠ q.addr →
      locate_read_operands (.reg r) (.reg q) o3 o4 = .error .tooManyRegfileA) ∧
    (∀ r q o3 o4 u p, phase1 [.reg r, .reg q, o3, o4] 0 false = .ok (u, p) →
      BonlyRead r → BonlyRead q →
      ACCUMURATOR_CODES r.name = none → ACCUMURATOR_CODES q.name = none → r.addr ≠ q.addr →
      locate_read_operands (.reg r) (.reg q) o3 o4 = .error .tooManyRegfileB) ∧
    locate_read_operands (.reg (ra 1)) (.reg (rb 6)) (.reg r0) (.reg r0)
      = .ok ⟨6, 7, 0, 0, 1, 6, false, 0, false⟩ ∧
    locate_read_operands (.reg (rb 6)) (.reg (ra 1)) (.reg r0) (.reg r0)
      = .ok ⟨7, 6, 0, 0, 1, 6, false, 0, false⟩ ∧
    locate_read_operands (.reg (ra 1)) (.reg (ra 2)) (.reg r0) (.reg r0)
      = .error .tooManyRegfileA ∧
    locate_read_operands (.reg (rb 32)) (.imm (.float 1)) (.reg r0) (.reg r0)
      = .error .tooManyRegfileB := by
  refine ⟨fun o1 o2 o3 o4 out h => locate_commit o1 o2 o3 o4 out h,
    fun r q o3 o4 u p h1 hra hrq haccr haccq hne =>
      locate_two_aonly_error r q o3 o4 u p h1 hra hrq haccr haccq hne,
    fun r q o3 o4 u p h1 hrb hrq haccr haccq hne =>
      locate_two_bonly_error r q o3 o4 u p h1 hrb hrq haccr haccq hne,
    by decide, by decide, by decide, by decide⟩

/-- C3 witness: on the accepted mixing call the immed flag is set and
the immediate's code 32 equals both raddr_b and rb32's address. -/
theorem read_operand_file_commitment_witness :
    (⟨7, 7, 0, 0, 39, 32, true, 0, false⟩ : ReadLoc).immed = true ∧
    pack_small_imm (.float 1) = .ok 32 ∧
    locate_read_operands (.reg (ra 3)) (.reg (ra 4)) (.reg r0) (.reg r0)
      = .error .tooManyRegfileA := by
  have h := (read_operand_file_commitment.1 (.imm (.float 1)) (.reg (rb 32)) (.reg r0) (.reg r0)
    ⟨7, 7, 0, 0, 39, 32, true, 0, false⟩ (by decide)).1 (.float 1) (by decide)
  have h2 := read_operand_file_commitment.2.1 (ra 3) (ra 4) (.reg r0) (.reg r0) 0 false
    (by decide) (by decide) (by decide) (by decide) (by decide) (by decide)
  exact ⟨h.1, h.2, h2⟩

/-- C8 counterexample: r4.unpack(16a) (pm true) and ra1.unpack(16a)
(pm false) carry equal unpack codes but different pm bits, and the call
is accepted (with pm taken from the last unpacking operand),
contradicting the claim that all unpacking operands must agree on pm. -/
theorem read_unpack_pm_disagreement_accepted :
    r4unpack16a.unpack_bits = ra1unpack16a.unpack_bits ∧
    r4unpack16a.pm_bits = true ∧ ra1unpack16a.pm_bits = false ∧
    locate_read_operands (.reg r4unpack16a) (.reg ra1unpack16a) (.reg r0) (.reg r0)
      = .ok ⟨4, 6, 0, 0, 1, 39, false, 1, false⟩ := by
  refine ⟨by decide, by decide, by decide, by decide⟩

/-- C8 (amended): read operands carrying a pack modifier are rejected
(none survives into a successful call); two operands carrying unpack
modifiers with different codes fail MultipleUnpacking (given no operand
is packed); and on success the returned unpack/pm pair is that of the
last operand carrying an unpack modifier (so equal codes with differing
pm bits are accepted, the last pm winning). -/
theorem read_operand_modifier_reconciliation :
    (∀ o1 o2 o3 o4 out, locate_read_operands o1 o2 o3 o4 = .ok out →
      ∀ r, Operand.reg r ∈ [o1, o2, o3, o4] → r.pack_bits = 0) ∧
    (∀ o1 o2 o3 o4, (∀ r, Operand.reg r ∈ [o1, o2, o3, o4] → r.pack_bits = 0) →
      ∀ r q, Operand.reg r ∈ [o1, o2, o3, o4] → Operand.reg q ∈ [o1, o2, o3, o4] →
      r.unpack_bits ≠ 0 → q.unpack_bits ≠ 0 → r.unpack_bits ≠ q.unpack_bits →
      locate_read_operands o1 o2 o3 o4 = .error .multipleUnpacking) ∧
    (∀ o1 o2 o3 o4 out, locate_read_operands o1 o2 o3 o4 = .ok out →
      (lastUnpack [o1, o2, o3, o4] = none → out.unpack = 0 ∧ out.pm = false) ∧
      (∀ q, lastUnpack [o1, o2, o3, o4] = some q →
        out.unpack = q.unpack_bits ∧ out.pm = q.pm_bits)) := by
  refine ⟨?_, ?_, ?_⟩
  · intro o1 o2 o3 o4 out h r hr
    obtain ⟨u, p, h1, -, -, -⟩ := locate_ok_decomp o1 o2 o3 o4 out h
    exact (phase1_charn _ _ _ _ _ h1).1 r hr
  · intro o1 o2 o3 o4 hnp r q hr hq hru hqu hne
    cases hph : phase1 [o1, o2, o3, o4] 0 false with
    | ok up =>
      exfalso
      obtain ⟨u2, p2⟩ := up
      have h3 := (phase1_charn _ _ _ _ _ hph).2.2.1
      have e1 := h3 r hr hru
      have e2 := h3 q hq hqu
      exact hne (e1.trans e2.symm)
    | error e =>
      have he := phase1_error_name _ _ _ _ hph hnp
      rw [he] at hph
      exact locate_phase1_error o1 o2 o3 o4 _ hph
  · intro o1 o2 o3 o4 out h
    obtain ⟨u, p, h1, hu, hp, -⟩ := locate_ok_decomp o1 o2 o3 o4 out h
    obtain ⟨-, -, -, c4, c5⟩ := phase1_charn _ _ _ _ _ h1
    constructor
    · intro hl
      obtain ⟨e1, e2⟩ := c4 hl
      exact ⟨by rw [hu, e1], by rw [hp, e2]⟩
    · intro q hq
      obtain ⟨e1, e2⟩ := c5 q hq
      exact ⟨by rw [hu, e1], by rw [hp, e2]⟩

/-- C8 witness: ra1.unpack(16a) against ra1.unpack(16b) (codes 1 and 2)
fails MultipleUnpacking, and the last unpacking operand decides the
returned modifier pair on the accepted disagreeing-pm call. -/
theorem read_operand_modifier_reconciliation_witness :
    locate_read_operands (.reg ra1unpack16a) (.reg ra1unpack16b) (.reg r0) (.reg r0)
      = .error .multipleUnpacking ∧
    ((⟨4, 6, 0, 0, 1, 39, false, 1, false⟩ : ReadLoc).unpack = ra1unpack16a.unpack_bits ∧
     (⟨4, 6, 0, 0, 1, 39, false, 1, false⟩ : ReadLoc).pm = ra1unpack16a.pm_bits) := by
  constructor
  · refine read_operand_modifier_reconciliation.2.1 (.reg ra1unpack16a) (.reg ra1unpack16b)
      (.reg r0) (.reg r0) ?_ ra1unpack16a ra1unpack16b (by decide) (by decide)
      (by decide) (by decide) (by decide)
    intro r hr
    simp only [List.mem_cons, List.not_mem_nil, or_false] at hr
    rcases hr with h | h | h | h <;> (injection h with h2; rw [h2]; decide)
  · exact (read_operand_modifier_reconciliation.2.2 (.reg r4unpack16a) (.reg ra1unpack16a)
      (.reg r0) (.reg r0) ⟨4, 6, 0, 0, 1, 39, false, 1, false⟩ (by decide)).2
      ra1unpack16a (by decide)

/-- C4: with a small-immediate read operand, add_insn under the default
signal emits signal code 13 ("alu small imm") and under any other
signal raises AssembleError naming the offending signal; the mul
binder likewise emits code 13 under the default signal, but under any
other signal it raises a Python NameError (its raise statement formats
the undefined name `sig`) instead of the AssembleError the claim
describes. -/
theorem small_imm_signal_conflict :
    (add_insn "iadd" 12 null (.reg (ra 1)) (.imm (.float 1)) "no signal" true).map
      (fun pr => pr.1.sig) = .ok 13 ∧
    add_insn "iadd" 12 null (.reg (ra 1)) (.imm (.float 1)) "thread end" true
      = .error (.signalConflictsWithImmediate "thread end") ∧
    (MulInsnEmitter.assemble ⟨12, null, .reg r0, .reg r0, "no signal", true⟩ 1 null
      (.reg r0) (.imm (.float 1)) (.int 0)).map (fun w => w.sig) = .ok 13 ∧
    MulInsnEmitter.assemble ⟨12, null, .reg r0, .reg r0, "thread end", true⟩ 1 null
      (.reg r0) (.imm (.float 1)) (.int 0) = .error .nameErrorSig := by
  refine ⟨by decide, by decide, by decide, by decide⟩

/-- Successful mul emission with a nonzero rotation: the user signal
was the default, both mul muxes select accumulators r0-r2, the emitted
signal is 13, and raddr_b encodes the rotation (48 for r5, 48+n for a
small integer n in [1,15]). -/
theorem assemble_rotate_ok (e : MulInsnEmitter) (op_mul : Nat) (mul_dst : Register)
    (m1 m2 : Operand) (rot : RotArg) (w : AluInsn) (hrot : rot.isNonzero = true)
    (h : MulInsnEmitter.assemble e op_mul mul_dst m1 m2 rot = .ok w) :
    ∃ ro, locate_read_operands e.add_opd1 e.add_opd2 m1 m2 = .ok ro ∧
      ro.immed = false ∧ ro.mul_a < 3 ∧ ro.mul_b < 3 ∧
      w.mul_a = ro.mul_a ∧ w.mul_b = ro.mul_b ∧ w.sig = 13 ∧
      (rot = .r5 → w.raddr_b = 48) ∧
      (∀ n, rot = .int n → 1 ≤ n ∧ n ≤ 15 ∧ w.raddr_b = (48 + n).toNat) := by
  simp only [MulInsnEmitter.assemble, bind, Except.bind] at h
  cases hro : locate_read_operands e.add_opd1 e.add_opd2 m1 m2 with
  | error er => simp [hro] at h
  | ok ro =>
    simp only [hro] at h
    cases hwo : locate_write_operands e.add_dst mul_dst with
    | error er => simp [hwo] at h
    | ok wo =>
      obtain ⟨wa, wm, ws, pk, wpm⟩ := wo
      simp only [hwo] at h
      cases hpm : combinePm ro.unpack pk ro.pm wpm with
      | error er => simp [hpm] at h
      | ok pm =>
        simp only [hpm] at h
        rw [if_pos (Or.inr hrot)] at h
        by_cases hsig : e.sig ≠ "no signal"
        · rw [if_pos hsig] at h
          simp at h
        · rw [if_neg hsig] at h
          simp only [Except.bind, show SIGNALING_BITS "alu small imm" = some 13 from rfl] at h
          rw [if_pos hrot] at h
          by_cases himm : ro.immed = true
          · rw [if_pos himm] at h
            simp at h
          · rw [if_neg himm] at h
            by_cases hmux : ro.mul_a < 3 ∧ ro.mul_b < 3
            · rw [if_neg (not_not_intro hmux)] at h
              split at h
              next =>
                cases h
                refine ⟨ro, rfl, ?_, ?_, ?_, ?_, ?_, ?_, ?_, ?_⟩
                · simpa using himm
                · exact hmux.1
                · exact hmux.2
                · exact Nat.mod_eq_of_lt (by omega)
                · exact Nat.mod_eq_of_lt (by omega)
                · rfl
                · intro hr5
                  norm_num
                · intro n hn
                  exact nomatch hn
              next n =>
                by_cases hn : 1 ≤ n ∧ n ≤ 15
                · rw [if_pos hn] at h
                  cases h
                  refine ⟨ro, rfl, ?_, ?_, ?_, ?_, ?_, ?_, ?_, ?_⟩
                  · simpa using himm
                  · exact hmux.1
                  · exact hmux.2
                  · exact Nat.mod_eq_of_lt (by omega)
                  · exact Nat.mod_eq_of_lt (by omega)
                  · rfl
                  · intro hr5
                    exact nomatch hr5
                  · intro k hk
                    injection hk with hk2
                    subst hk2
                    exact ⟨hn.1, hn.2, Nat.mod_eq_of_lt (by omega)⟩
                · rw [if_neg hn] at h
                  cases h
            · rw [if_pos hmux] at h
              simp at h

/-- C7: for every mul emission with a nonzero rotate argument, success
implies both mul input muxes are accumulator selectors below 3 and the
emitted signal is "alu small imm" (code 13); a rotate of r5 encodes
raddr_b = 48; an integer rotate succeeds only for n in [1,15], encoding
raddr_b = 48 + n; and combining rotate with a small-immediate read
operand always fails. -/
theorem mul_rotate_encoding (e : MulInsnEmitter) (op_mul : Nat) (mul_dst : Register)
    (m1 m2 : Operand) (rot : RotArg) (hrot : rot.isNonzero = true) :
    (∀ w, MulInsnEmitter.assemble e op_mul mul_dst m1 m2 rot = .ok w →
      w.mul_a < 3 ∧ w.mul_b < 3 ∧ w.sig = 13) ∧
    (∀ w, rot = .r5 → MulInsnEmitter.assemble e op_mul mul_dst m1 m2 rot = .ok w →
      w.raddr_b = 48) ∧
    (∀ w n, rot = .int n → MulInsnEmitter.assemble e op_mul mul_dst m1 m2 rot = .ok w →
      1 ≤ n ∧ n ≤ 15 ∧ w.raddr_b = (48 + n).toNat) ∧
    ((∃ o ∈ [e.add_opd1, e.add_opd2, m1, m2], o.isImm = true) →
      ∃ er, MulInsnEmitter.assemble e op_mul mul_dst m1 m2 rot = .error er) := by
  refine ⟨?_, ?_, ?_, ?_⟩
  · intro w hw
    obtain ⟨ro, -, -, hm1, hm2, ha, hb, hs, -, -⟩ :=
      assemble_rotate_ok e op_mul mul_dst m1 m2 rot w hrot hw
    exact ⟨by omega, by omega, hs⟩
  · intro w hr5 hw
    obtain ⟨ro, -, -, -, -, -, -, -, h48, -⟩ :=
      assemble_rotate_ok e op_mul mul_dst m1 m2 rot w hrot hw
    exact h48 hr5
  · intro w n hn hw
    obtain ⟨ro, -, -, -, -, -, -, -, -, hint⟩ :=
      assemble_rotate_ok e op_mul mul_dst m1 m2 rot w hrot hw
    exact hint n hn
  · intro himm
    cases hres : MulInsnEmitter.assemble e op_mul mul_dst m1 m2 rot with
    | error er => exact ⟨er, rfl⟩
    | ok w =>
      exfalso
      obtain ⟨ro, hro, hroimm, -⟩ :=
        assemble_rotate_ok e op_mul mul_dst m1 m2 rot w hrot hres
      obtain ⟨o, ho, hoimm⟩ := himm
      obtain ⟨v, rfl⟩ : ∃ v, o = Operand.imm v := by
        cases o with
        | reg r => simp [Operand.isImm] at hoimm
        | imm v => exact ⟨v, rfl⟩
      have := ((locate_commit _ _ _ _ _ hro).1 v ho).1
      rw [this] at hroimm
      cases hroimm

/-- C7 witness: rotate 3 with both mul inputs on accumulators r0, r1
yields muxes 0 and 1, signal 13 and raddr_b = 51. -/
theorem mul_rotate_encoding_witness :
    rotateDemoInsn.mul_a < 3 ∧ rotateDemoInsn.mul_b < 3 ∧ rotateDemoInsn.sig = 13 ∧
    rotateDemoInsn.raddr_b = ((48 : Int) + 3).toNat := by
  have h := mul_rotate_encoding ⟨12, null, .reg r0, .reg r0, "no signal", true⟩ 1 null
    (.reg r0) (.reg r1) (.int 3) (by decide)
  have h1 := h.1 rotateDemoInsn (by decide)
  have h3 := h.2.2.1 rotateDemoInsn 3 rfl (by decide)
  exact ⟨h1.1, h1.2.1, h1.2.2, h3.2.2⟩

/-- Overwriting the immediate field leaves the top 32 bits (and hence
the signal nibble) of a word unchanged. -/
theorem setImm_shift60 (w v : Nat) : setImm w v >>> 60 = w >>> 60 := by
  unfold setImm
  rw [Nat.shiftRight_eq_div_pow, Nat.shiftRight_eq_div_pow]
  have h1 : v % 2^32 < 2^32 := Nat.mod_lt _ (by norm_num)
  omega

/-- The low 32 bits of a word after overwriting the immediate field. -/
theorem setImm_low32 (w v : Nat) : setImm w v % 2^32 = v % 2^32 := by
  unfold setImm
  have h1 : v % 2^32 < 2^32 := Nat.mod_lt _ (by norm_num)
  omega

/-- Entries whose word index differs from j leave the word at index j
untouched while backpatching. -/
theorem runBackpatch_untouched (labels : List (String × Nat)) (rest : List (Nat × String))
    (insns : List Nat) (j : Nat)
    (hj : ∀ e ∈ rest, e.1 / 8 ≠ j)
    (hres : ∀ e ∈ rest, (lookupLabel labels e.2).isSome)
    (hrange : ∀ e ∈ rest, e.1 / 8 < insns.length)
    (hsig : ∀ e ∈ rest, insns.getD (e.1 / 8) 0 >>> 60 = 15) :
    ∃ ins2, runBackpatch labels rest insns = .ok ins2 ∧ ins2.getD j 0 = insns.getD j 0 := by
  induction rest generalizing insns with
  | nil => exact ⟨insns, rfl, rfl⟩
  | cons e rest ih =>
    obtain ⟨p, l⟩ := e
    have hr := hres (p, l) (List.mem_cons_self _ _)
    cases hlook : lookupLabel labels l with
    | none => rw [hlook] at hr; cases hr
    | some t =>
      have hp : p / 8 < insns.length := hrange (p, l) (List.mem_cons_self _ _)
      have hs : insns.get ⟨p / 8, hp⟩ >>> 60 = 15 := by
        have := hsig (p, l) (List.mem_cons_self _ _)
        rwa [List.getD_eq_getElem?_getD, List.getElem?_eq_getElem hp] at this
      simp only [runBackpatch, hlook, dif_pos hp, hs, if_pos]
      set w := insns.get ⟨p / 8, hp⟩ with hw
      set v := ((((t : Int) - ((p : Int) + 32)) % (2^32)).toNat) with hv
      have hlen : (insns.set (p / 8) (setImm w v)).length = insns.length := List.length_set _ _ _
      obtain ⟨ins2, hrun, hsame⟩ := ih (insns.set (p / 8) (setImm w v))
        (fun e he => hj e (List.mem_cons_of_mem _ he))
        (fun e he => hres e (List.mem_cons_of_mem _ he))
        (fun e he => by rw [hlen]; exact hrange e (List.mem_cons_of_mem _ he))
        (fun e he => by
          by_cases hep : e.1 / 8 = p / 8
          · rw [hep]
            rw [List.getD_eq_getElem?_getD, List.getElem?_set_self (by omega),
              Option.getD_some, setImm_shift60]
            have := hsig (p, l) (List.mem_cons_self _ _)
            rwa [List.getD_eq_getElem?_getD, List.getElem?_eq_getElem hp] at this
          · rw [List.getD_eq_getElem?_getD, List.getElem?_set_ne (fun hc => hep hc.symm)]
            rw [← List.getD_eq_getElem?_getD]
            exact hsig e (List.mem_cons_of_mem _ he))
      refine ⟨ins2, hrun, ?_⟩
      rw [hsame]
      have hpj : p / 8 ≠ j := hj (p, l) (List.mem_cons_self _ _)
      rw [List.getD_eq_getElem?_getD, List.getElem?_set_ne hpj, ← List.getD_eq_getElem?_getD]

/-- Backpatching writes the 32-bit relative displacement
labels[L] - (P + 32) into the branch word emitted at PC P. -/
theorem runBackpatch_sets (labels : List (String × Nat)) (bl : List (Nat × String))
    (insns : List Nat) (P : Nat) (L : String) (t : Nat)
    (hfil : bl.filter (fun e => e.1 / 8 = P / 8) = [(P, L)])
    (hlook : lookupLabel labels L = some t)
    (hres : ∀ e ∈ bl, (lookupLabel labels e.2).isSome)
    (hrange : ∀ e ∈ bl, e.1 / 8 < insns.length)
    (hsig : ∀ e ∈ bl, insns.getD (e.1 / 8) 0 >>> 60 = 15) :
    ∃ ins2, runBackpatch labels bl insns = .ok ins2 ∧
      ins2.getD (P / 8) 0 % 2^32 = ((((t : Int) - ((P : Int) + 32)) % (2^32))).toNat := by
  induction bl generalizing insns with
  | nil => simp at hfil
  | cons e bl ih =>
    obtain ⟨p, l⟩ := e
    have hr := hres (p, l) (List.mem_cons_self _ _)
    have hp : p / 8 < insns.length := hrange (p, l) (List.mem_cons_self _ _)
    have hs : insns.get ⟨p / 8, hp⟩ >>> 60 = 15 := by
      have := hsig (p, l) (List.mem_cons_self _ _)
      rwa [List.getD_eq_getElem?_getD, List.getElem?_eq_getElem hp] at this
    by_cases hcase : p / 8 = P / 8
    · rw [List.filter_cons_of_pos (by simpa using hcase)] at hfil
      have hPL : p = P ∧ l = L := by
        have := List.head_eq_of_cons_eq hfil
        exact ⟨congrArg Prod.fst this, congrArg Prod.snd this⟩
      obtain ⟨rfl, rfl⟩ := hPL
      have hrest : bl.filter (fun e => e.1 / 8 = p / 8) = [] := List.tail_eq_of_cons_eq hfil
      have hnone : ∀ e ∈ bl, e.1 / 8 ≠ p / 8 := by
        intro e he hc
        have : e ∈ bl.filter (fun e => e.1 / 8 = p / 8) := List.mem_filter.mpr ⟨he, by simpa using hc⟩
        rw [hrest] at this
        simp at this
      simp only [runBackpatch, hlook, dif_pos hp, hs, if_pos]
      set w := insns.get ⟨p / 8, hp⟩ with hw
      set v := ((((t : Int) - ((p : Int) + 32)) % (2^32)).toNat) with hv
      have hlen : (insns.set (p / 8) (setImm w v)).length = insns.length := List.length_set _ _ _
      obtain ⟨ins2, hrun, hsame⟩ := runBackpatch_untouched labels bl
        (insns.set (p / 8) (setImm w v)) (p / 8)
        hnone
        (fun e he => hres e (List.mem_cons_of_mem _ he))
        (fun e he => by rw [hlen]; exact hrange e (List.mem_cons_of_mem _ he))
        (fun e he => by
          rw [List.getD_eq_getElem?_getD, List.getElem?_set_ne (fun hc => hnone e he hc.symm)]
          rw [← List.getD_eq_getElem?_getD]
          exact hsig e (List.mem_cons_of_mem _ he))
      refine ⟨ins2, hrun, ?_⟩
      rw [hsame]
      rw [List.getD_eq_getElem?_getD, List.getElem?_set_self (by omega), Option.getD_some]
      rw [setImm_low32, hv]
      have hlt : ((((t : Int) - ((p : Int) + 32)) % (2^32)).toNat) < 2^32 := emod32_toNat_lt _
      exact Nat.mod_eq_of_lt hlt
    · rw [List.filter_cons_of_neg (by simpa using hcase)] at hfil
      cases hlook2 : lookupLabel labels l with
      | none => rw [hlook2] at hr; cases hr
      | some t2 =>
        simp only [runBackpatch, hlook2, dif_pos hp, hs, if_pos]
        set w := insns.get ⟨p / 8, hp⟩ with hw
        set v := ((((t2 : Int) - ((p : Int) + 32)) % (2^32)).toNat) with hv
        have hlen : (insns.set (p / 8) (setImm w v)).length = insns.length := List.length_set _ _ _
        exact ih (insns.set (p / 8) (setImm w v)) hfil
          (fun e he => hres e (List.mem_cons_of_mem _ he))
          (fun e he => by rw [hlen]; exact hrange e (List.mem_cons_of_mem _ he))
          (fun e he => by
            by_cases hep : e.1 / 8 = p / 8
            · rw [hep]
              rw [List.getD_eq_getElem?_getD, List.getElem?_set_self (by omega),
                Option.getD_some, setImm_shift60]
              have := hsig (p, l) (List.mem_cons_self _ _)
              rwa [List.getD_eq_getElem?_getD, List.getElem?_eq_getElem hp] at this
            · rw [List.getD_eq_getElem?_getD, List.getElem?_set_ne (fun hc => hep hc.symm)]
              rw [← List.getD_eq_getElem?_getD]
              exact hsig e (List.mem_cons_of_mem _ he))

/-- C1: after finalization, for every branch emitted at byte PC P whose
target is the declared label L (its pending entry being the only one
touching that word), the finalized stream's word at index P/8 carries
labels[L] - (P + 32) in its 32-bit immediate field, interpreted as a
two's-complement value. -/
theorem branch_label_displacement (st : AsmState) (P : Nat) (L : String) (t : Nat)
    (hfil : st.backpatch_list.filter (fun e => e.1 / 8 = P / 8) = [(P, L)])
    (hlook : lookupLabel st.labels L = some t)
    (hres : ∀ e ∈ st.backpatch_list, (lookupLabel st.labels e.2).isSome)
    (hrange : ∀ e ∈ st.backpatch_list, e.1 / 8 < st.insns.length)
    (hsig : ∀ e ∈ st.backpatch_list, st.insns.getD (e.1 / 8) 0 >>> 60 = 15) :
    (Assembler.getcode st).map (fun code => code.getD (P / 8) 0 % 2^32)
      = .ok ((((t : Int) - ((P : Int) + 32)) % (2^32)).toNat) := by
  obtain ⟨ins2, hrun, hval⟩ := runBackpatch_sets st.labels st.backpatch_list st.insns P L t
    hfil hlook hres hrange hsig
  simp only [Assembler.getcode, Assembler.backpatch, bind, Except.bind, hrun, Except.map]
  rw [hval]

/-- C1 witness: the scenario program (label L; nop; jmp L; nop x4) has
its branch at PC 8 and the label at PC 0; the finalized branch word
carries 0xFFFFFFD8, the displacement -40 as a 32-bit two's-complement
value. -/
theorem branch_label_displacement_witness :
    demoProgram = .ok demoState ∧
    (Assembler.getcode demoState).map (fun code => code.getD 1 0 % 2^32) = .ok 4294967256 := by
  constructor
  · decide
  · have h := branch_label_displacement demoState 8 "L" 0 (by decide) (by decide)
      (by decide) (by decide) (by decide)
    have he : ((((0 : Nat) : Int) - (((8 : Nat) : Int) + 32)) % (2^32)).toNat = 4294967256 := by decide
    rw [he] at h
    exact h

/-- C10: for every A-readable register passed as the optional register
input of a branch emission, the emission succeeds and the emitted
branch word's 5-bit raddr_a field equals the register's address reduced
modulo 32 (addresses 32 and above are silently truncated). -/
theorem branch_reg_raddr_truncated (st : AsmState) (cond_br : Nat) (target : BrTarget)
    (r : Register) (hr : r.spec &&& REG_AR ≠ 0) :
    (Assembler.branch_insn st cond_br target (some r) null).map
      (fun st2 => st2.insns.getLast?.getD 0 >>> 45 % 32) = .ok (r.addr % 32) := by
  have hw : locate_write_operands null null = .ok (39, 39, false, 0, false) := by decide
  cases target <;>
    simp only [Assembler.branch_insn, hr, hw, AsmState.emit, bind, Except.bind, ite_true,
      ite_false, if_neg, if_pos, ne_eq, not_false_iff, Except.map] <;>
    simp [hr, List.getLast?_concat, branchWord_field_raddr]

/-- C10 witness: element_number has address 38 and is A-readable; the
emitted branch word reports raddr_a = 6. -/
theorem branch_reg_raddr_truncated_witness :
    (Assembler.branch_insn initAsm 15 (.abs 0) (some element_number) null).map
      (fun st2 => st2.insns.getLast?.getD 0 >>> 45 % 32) = .ok 6 := by
  have h := branch_reg_raddr_truncated initAsm 15 (.abs 0) element_number (by decide)
  simpa using h

end VC
